import Mathlib

set_option maxRecDepth 16384

/-!
Shallow embedding of the Hft-Simulator core (order model, order-book sides,
order book, matching engine, trader bookkeeping, CSV order import), translated
from the Python sources:

  src/models/order.py        (Order, OrderSide, OrderStatus)
  src/models/orderbook.py    (OrderBookSide, OrderBook)
  src/models/trader.py       (Trader.on_order_filled)
  src/python_hft/models/engine.py (TradingEngine)
  src/utils/csv_importer.py  (CSVImporter)

Conventions of the embedding:
* Python ints are `Int` (quantities), Python floats used as prices are `Rat`
  (only comparisons, `min`, `+`, `-`, `*` occur on the modelled paths).
* Python dicts (insertion-ordered) are association lists `List (k × v)`;
  `alookup` reads the first binding, `aset` overwrites the first binding or
  appends a new one at the end, `aerase` deletes the first binding — exactly
  the observable behaviour of a `dict` with unique keys.
* `uuid.uuid4()` order ids are modelled as a caller-supplied `Nat`.
* `datetime` timestamps carry no information used by any modelled computation
  and are omitted.
* Locks are elided in the functional embedding (all matching runs on the
  single execution thread).  The one place where the locking itself is the
  subject of a claim — `OrderBookSide.get_best_order` re-acquiring the side's
  non-reentrant `threading.Lock` — is modelled explicitly by the
  `*_locked` definitions near the end of the definitions section.
-/

namespace HftSim

/-- Association-list lookup: first binding wins, as in a Python dict. -/
def alookup {α β : Type} [DecidableEq α] : List (α × β) → α → Option β
  | [], _ => none
  | (k, v) :: rest, key => if k = key then some v else alookup rest key

/-- Association-list store: overwrite the first binding for the key, or append
a new binding at the end — a Python dict assignment `d[key] = val`. -/
def aset {α β : Type} [DecidableEq α] : List (α × β) → α → β → List (α × β)
  | [], key, val => [(key, val)]
  | (k, v) :: rest, key, val =>
      if k = key then (k, val) :: rest else (k, v) :: aset rest key val

/-- Association-list delete: drop the first binding for the key — Python
`del d[key]` (a no-op when the key is absent; all call sites guard with a
membership test first, as the source does). -/
def aerase {α β : Type} [DecidableEq α] : List (α × β) → α → List (α × β)
  | [], _ => []
  | (k, v) :: rest, key => if k = key then rest else (k, v) :: aerase rest key

/-- `OrderSide` from src/models/order.py. -/
inductive OrderSide where
  | BUY
  | SELL
deriving DecidableEq

/-- `OrderStatus` from src/models/order.py. -/
inductive OrderStatus where
  | PENDING
  | PARTIALLY_FILLED
  | FILLED
  | CANCELLED
deriving DecidableEq

/-- One entry of `Order.fills` (the fill record dict; timestamp omitted). -/
structure FillRecord where
  quantity : Int
  price : Rat
deriving DecidableEq

/-- `Order` from src/models/order.py.  `quantity` is the remaining quantity
(the source reuses the constructor argument's name for it). -/
structure Order where
  order_id : Nat
  trader_id : String
  symbol : String
  side : OrderSide
  quantity : Int
  original_quantity : Int
  price : Rat
  status : OrderStatus
  fills : List FillRecord
deriving DecidableEq

/-- `Order.__init__`: the constructor performs no validation of `quantity`
or `price`; every order starts `PENDING` with an empty fill list. -/
def Order.new (order_id : Nat) (trader_id symbol : String) (side : OrderSide)
    (quantity : Int) (price : Rat) : Order :=
  { order_id := order_id, trader_id := trader_id, symbol := symbol,
    side := side, quantity := quantity, original_quantity := quantity,
    price := price, status := OrderStatus.PENDING, fills := [] }

/-- `Order.fill`: raises `ValueError` when the fill exceeds the remaining
quantity; otherwise records the fill, decrements the remaining quantity and
updates the status. -/
def Order.fill (o : Order) (quantity : Int) (price : Rat) :
    Except String Order :=
  if quantity > o.quantity then
    Except.error ("Fill quantity exceeds remaining order quantity")
  else
    Except.ok
      { o with
        fills := o.fills ++ [{ quantity := quantity, price := price }],
        quantity := o.quantity - quantity,
        status :=
          if o.quantity - quantity = 0 then OrderStatus.FILLED
          else OrderStatus.PARTIALLY_FILLED }

/-- The successful branch of `Order.fill` as a total update.  The engine's
matching loop calls `.fill` with `quantity = min(incoming.remaining,
resting.remaining)`, which never exceeds either remaining quantity, so the
`ValueError` branch is unreachable there (`Order.fill_eq_applied` below
relates the two).  On `quantity > o.quantity` this returns `o` unchanged. -/
def Order.fillApplied (o : Order) (quantity : Int) (price : Rat) : Order :=
  if quantity > o.quantity then o
  else
    { o with
      fills := o.fills ++ [{ quantity := quantity, price := price }],
      quantity := o.quantity - quantity,
      status :=
        if o.quantity - quantity = 0 then OrderStatus.FILLED
        else OrderStatus.PARTIALLY_FILLED }

/-- `Order.cancel`: moves to `CANCELLED` only from `PENDING` or
`PARTIALLY_FILLED`, otherwise does nothing. -/
def Order.cancel (o : Order) : Order :=
  if o.status = OrderStatus.PENDING ∨ o.status = OrderStatus.PARTIALLY_FILLED
  then { o with status := OrderStatus.CANCELLED }
  else o

/-- `Order.get_filled_quantity`. -/
def Order.get_filled_quantity (o : Order) : Int :=
  (o.fills.map (fun f => f.quantity)).sum

/-- `Order.is_active`: status in {PENDING, PARTIALLY_FILLED}. -/
def Order.is_active (o : Order) : Prop :=
  o.status = OrderStatus.PENDING ∨ o.status = OrderStatus.PARTIALLY_FILLED

instance (o : Order) : Decidable o.is_active := by
  unfold Order.is_active; infer_instance

/-- Trade record dict built in `TradingEngine._execute_trade`
(src/python_hft/models/engine.py).  `trade_id` is the source's
`f"{total_trades + 1:06d}"` counter, modelled as the number itself. -/
structure Trade where
  trade_id : Nat
  symbol : String
  quantity : Int
  price : Rat
  buyer_id : String
  seller_id : String
  buy_order_id : Nat
  sell_order_id : Nat
  side : OrderSide
deriving DecidableEq

/-- `OrderBookSide` from src/models/orderbook.py.  `price_levels` is the
dict price → FIFO deque of orders, in insertion order.  The source also
keeps `price_heap` (a heap of pushed prices, cleaned lazily) and `orders`
(an id → order index); both are derivable views of `price_levels`:
every price with a nonempty bucket is in the heap (pushed when its bucket
was created, popped only when its bucket is empty or absent), and `orders`
holds exactly the orders of the buckets.  `get_best_price` below embeds
the lazily-cleaned heap read directly as the extremum over nonempty
buckets, and `remove_order`'s id lookup searches the buckets. -/
structure OrderBookSide where
  is_bid_side : Bool
  price_levels : List (Rat × List Order)
deriving DecidableEq

/-- `OrderBookSide.__init__`. -/
def OrderBookSide.new (is_bid_side : Bool) : OrderBookSide :=
  { is_bid_side := is_bid_side, price_levels := [] }

/-- `OrderBookSide.add_order`: append to the FIFO deque at the order's
price, creating the bucket (and its heap entry) if the price is new. -/
def OrderBookSide.add_order (s : OrderBookSide) (o : Order) : OrderBookSide :=
  match alookup s.price_levels o.price with
  | some bucket =>
      { s with price_levels := aset s.price_levels o.price (bucket ++ [o]) }
  | none =>
      { s with price_levels := s.price_levels ++ [(o.price, [o])] }

/-- Does a bucket hold an order with this id? -/
def bucketContains (b : List Order) (oid : Nat) : Bool :=
  b.any (fun o => o.order_id = oid)

/-- Remove the first order with the given id from the first bucket holding
one, dropping the bucket if it becomes empty — the body of
`OrderBookSide.remove_order` after the `orders` index located the order
(the source finds the bucket through `self.orders[order_id].price`; an
order is stored in the bucket keyed by its own price, so this is the
bucket in which the id occurs). -/
def eraseIdFromLevels : List (Rat × List Order) → Nat → List (Rat × List Order)
  | [], _ => []
  | (p, b) :: rest, oid =>
      if bucketContains b oid then
        let b' := b.eraseP (fun o => o.order_id = oid)
        if b'.isEmpty then rest else (p, b') :: rest
      else (p, b) :: eraseIdFromLevels rest oid

/-- Membership in the side's `orders` index (`order_id in self.orders`). -/
def OrderBookSide.containsId (s : OrderBookSide) (oid : Nat) : Bool :=
  s.price_levels.any (fun pb => bucketContains pb.2 oid)

/-- `OrderBookSide.remove_order`: `False` when the id is unknown, else
remove the order from its price bucket (dropping the bucket when it
empties; the heap entry is left for lazy cleanup) and report `True`. -/
def OrderBookSide.remove_order (s : OrderBookSide) (oid : Nat) :
    OrderBookSide × Bool :=
  if s.containsId oid then
    ({ s with price_levels := eraseIdFromLevels s.price_levels oid }, true)
  else (s, false)

/-- The extremum of a price list: maximum for the bid side, minimum for the
ask side — what the source's heap (max-heap of negated prices for bids,
min-heap for asks) yields after lazy cleanup. -/
def extremum? (is_bid : Bool) : List Rat → Option Rat
  | [] => none
  | p :: rest =>
      match extremum? is_bid rest with
      | none => some p
      | some q => some (if is_bid then max p q else min p q)

/-- The prices whose buckets are nonempty — the heap entries that survive
`get_best_price`'s lazy cleanup. -/
def OrderBookSide.nonemptyPrices (s : OrderBookSide) : List Rat :=
  (s.price_levels.filter (fun pb => !pb.2.isEmpty)).map Prod.fst

/-- `OrderBookSide.get_best_price`: pop stale heap entries (prices whose
bucket is empty or absent), then return the top of the heap; `None` when
nothing is left. -/
def OrderBookSide.get_best_price (s : OrderBookSide) : Option Rat :=
  extremum? s.is_bid_side s.nonemptyPrices

/-- `OrderBookSide.get_best_order`: the head of the bucket at the best
price.  The source guards with `if best_price and best_price in
self.price_levels:` — a best price of `0.0` is falsy in Python, so a
zero-priced level makes this return `None` even though the level exists;
the embedding keeps that behaviour (`if p = 0 then none`).
(The source method also deadlocks on its own non-reentrant lock; see
`get_best_order_locked` below, which models the locking.  This definition
is the value the code computes under the elided-lock reading used by the
matching claims.) -/
def OrderBookSide.get_best_order (s : OrderBookSide) : Option Order :=
  match s.get_best_price with
  | none => none
  | some p =>
      if p = 0 then none
      else
        match alookup s.price_levels p with
        | none => none
        | some bucket => bucket.head?

/-- All orders resting on the side, in level order then FIFO order. -/
def OrderBookSide.sideOrders (s : OrderBookSide) : List Order :=
  (s.price_levels.map Prod.snd).flatten

/-- Number of orders resting on the side. -/
def OrderBookSide.sideSize (s : OrderBookSide) : Nat :=
  (s.price_levels.map (fun pb => pb.2.length)).sum

/-- Replace the head of a bucket (the in-place mutation of the resting
order object that `Order.fill` performs through the alias held by the
deque). -/
def headReplace : List Order → Order → List Order
  | [], o => [o]
  | _ :: t, o => o :: t

/-- Replace the head of the (first) bucket at the given price. -/
def setHeadAt : List (Rat × List Order) → Rat → Order → List (Rat × List Order)
  | [], _, _ => []
  | (k, b) :: rest, p, o =>
      if k = p then (k, headReplace b o) :: rest
      else (k, b) :: setHeadAt rest p o

/-- Write the mutated resting order back to the head of its price bucket:
the explicit form of the aliasing through which the source's matching loop
mutates the order object sitting at the head of the deque. -/
def OrderBookSide.writeBack (s : OrderBookSide) (p : Rat) (o : Order) :
    OrderBookSide :=
  { s with price_levels := setHeadAt s.price_levels p o }

/-- Lock-explicit `OrderBookSide.get_best_price`: the method body runs
under `with self.lock`.  `locked` says whether the calling thread already
holds the side's (non-reentrant `threading.Lock`) lock; acquiring a lock
the thread already holds blocks forever, modelled as `none` ("the call
never returns"). -/
def OrderBookSide.get_best_price_locked (locked : Bool) (s : OrderBookSide) :
    Option (Option Rat) :=
  if locked then none else some s.get_best_price

/-- Lock-explicit `OrderBookSide.get_best_order`: acquires `self.lock`,
then calls `self.get_best_price()` — which tries to acquire the very same
non-reentrant lock.  The inner acquisition therefore blocks forever
(`none`); the code after it is unreachable but transcribed. -/
def OrderBookSide.get_best_order_locked (locked : Bool) (s : OrderBookSide) :
    Option (Option Order) :=
  if locked then none
  else
    match OrderBookSide.get_best_price_locked true s with
    | none => none
    | some bp =>
        some (match bp with
          | none => none
          | some p =>
              if p = 0 then none
              else
                match alookup s.price_levels p with
                | none => none
                | some bucket => bucket.head?)

/-- `OrderBook` from src/models/orderbook.py: the two sides, the symbol and
the recent-trade ring (`deque(maxlen=1000)`). -/
structure OrderBook where
  symbol : String
  bids : OrderBookSide
  asks : OrderBookSide
  trade_history : List Trade
deriving DecidableEq

/-- `OrderBook.__init__`. -/
def OrderBook.new (symbol : String) : OrderBook :=
  { symbol := symbol, bids := OrderBookSide.new true,
    asks := OrderBookSide.new false, trade_history := [] }

/-- `OrderBook.add_order`: raises `ValueError` on a symbol mismatch, else
dispatches to the matching side. -/
def OrderBook.add_order (bk : OrderBook) (o : Order) : Except String OrderBook :=
  if o.symbol ≠ bk.symbol then
    Except.error ("Order symbol does not match book symbol")
  else if o.side = OrderSide.BUY then
    Except.ok { bk with bids := bk.bids.add_order o }
  else
    Except.ok { bk with asks := bk.asks.add_order o }

/-- `OrderBook.remove_order`. -/
def OrderBook.remove_order (bk : OrderBook) (oid : Nat) (side : OrderSide) :
    OrderBook × Bool :=
  if side = OrderSide.BUY then
    let r := bk.bids.remove_order oid
    ({ bk with bids := r.1 }, r.2)
  else
    let r := bk.asks.remove_order oid
    ({ bk with asks := r.1 }, r.2)

/-- `OrderBook.get_best_bid`. -/
def OrderBook.get_best_bid (bk : OrderBook) : Option Order :=
  bk.bids.get_best_order

/-- `OrderBook.get_best_ask`. -/
def OrderBook.get_best_ask (bk : OrderBook) : Option Order :=
  bk.asks.get_best_order

/-- `OrderBook.get_best_bid_price`. -/
def OrderBook.get_best_bid_price (bk : OrderBook) : Option Rat :=
  bk.bids.get_best_price

/-- `OrderBook.get_best_ask_price`. -/
def OrderBook.get_best_ask_price (bk : OrderBook) : Option Rat :=
  bk.asks.get_best_price

/-- Append to a `deque(maxlen = cap)`: the oldest entries fall off the
left once the capacity is reached. -/
def ringAppend (l : List Trade) (t : Trade) (cap : Nat) : List Trade :=
  let l' := l ++ [t]
  l'.drop (l'.length - cap)

/-- `OrderBook.add_trade`. -/
def OrderBook.add_trade (bk : OrderBook) (t : Trade) : OrderBook :=
  { bk with trade_history := ringAppend bk.trade_history t 1000 }

/-- `OrderBook.is_crossed`: `best_bid >= best_ask` when both sides quote. -/
def OrderBook.is_crossed (bk : OrderBook) : Bool :=
  match bk.get_best_bid_price, bk.get_best_ask_price with
  | some best_bid, some best_ask => best_bid ≥ best_ask
  | _, _ => false

/-- `Trader` from src/models/trader.py (the portfolio-bookkeeping state
touched by `on_order_filled`; the random generation loop is out of the
modelled claims' scope).  `positions` and `average_costs` are the
per-symbol dicts initialised from the trader's symbol list. -/
structure Trader where
  trader_id : String
  initial_cash : Rat
  cash : Rat
  symbols : List String
  positions : List (String × Int)
  average_costs : List (String × Rat)
  orders_sent : Nat
  orders_filled : Nat
  total_volume : Int
deriving DecidableEq

/-- `Trader.__init__`. -/
def Trader.new (trader_id : String) (initial_cash : Rat)
    (symbols : List String) : Trader :=
  { trader_id := trader_id, initial_cash := initial_cash,
    cash := initial_cash, symbols := symbols,
    positions := symbols.map (fun s => (s, 0)),
    average_costs := symbols.map (fun s => (s, 0)),
    orders_sent := 0, orders_filled := 0, total_volume := 0 }

/-- `Trader.on_order_filled`: the engine's fill callback.  BUY: pay cash,
add to the position and re-average the cost basis.  SELL: collect cash,
reduce the position, reset the cost basis at zero.  The dict reads
`self.positions[symbol]` / `self.average_costs[symbol]` raise `KeyError`
when the symbol is missing; the engine catches the exception, so the
mutations made before the failing read remain — those truncated states are
returned in the `none` branches. -/
def Trader.on_order_filled (t : Trader) (order : Order) (fill_quantity : Int)
    (fill_price : Rat) : Trader :=
  if order.side = OrderSide.BUY then
    let cost : Rat := fill_quantity * fill_price
    let t1 := { t with cash := t.cash - cost }
    match alookup t1.positions order.symbol with
    | none => t1
    | some old_position =>
        match alookup t1.average_costs order.symbol with
        | none => t1
        | some avg =>
            let old_cost_basis : Rat := avg * old_position
            let new_cost_basis : Rat := old_cost_basis + cost
            let new_position : Int := old_position + fill_quantity
            let t2 := { t1 with
              positions := aset t1.positions order.symbol new_position }
            let t3 :=
              if new_position > 0 then
                { t2 with average_costs := aset t2.average_costs order.symbol (new_cost_basis / new_position) }
              else t2
            { t3 with orders_filled := t3.orders_filled + 1,
                      total_volume := t3.total_volume + fill_quantity }
  else
    let proceeds : Rat := fill_quantity * fill_price
    let t1 := { t with cash := t.cash + proceeds }
    match alookup t1.positions order.symbol with
    | none => t1
    | some pos =>
        let t2 := { t1 with
          positions := aset t1.positions order.symbol (pos - fill_quantity) }
        let t3 :=
          if pos - fill_quantity = 0 then
            { t2 with average_costs := aset t2.average_costs order.symbol 0 }
          else t2
        { t3 with orders_filled := t3.orders_filled + 1,
                  total_volume := t3.total_volume + fill_quantity }

/-- `TradingEngine` from src/python_hft/models/engine.py (the state the
modelled claims touch; queueing, threading and timing counters are
elided). -/
structure TradingEngine where
  orderbooks : List (String × OrderBook)
  active_orders : List (Nat × Order)
  traders : List (String × Trader)
  trade_history : List Trade
  total_trades : Nat
  total_volume : Int
deriving DecidableEq

/-- `TradingEngine.__init__`. -/
def TradingEngine.new : TradingEngine :=
  { orderbooks := [], active_orders := [], traders := [],
    trade_history := [], total_trades := 0, total_volume := 0 }

/-- `TradingEngine.register_trader`. -/
def TradingEngine.register_trader (e : TradingEngine) (t : Trader) :
    TradingEngine :=
  { e with traders := aset e.traders t.trader_id t }

/-- `TradingEngine.get_orderbook`: return the symbol's book, creating it on
first use. -/
def TradingEngine.get_orderbook (e : TradingEngine) (symbol : String) :
    TradingEngine × OrderBook :=
  match alookup e.orderbooks symbol with
  | some bk => (e, bk)
  | none =>
      let bk := OrderBook.new symbol
      ({ e with orderbooks := e.orderbooks ++ [(symbol, bk)] }, bk)

/-- `TradingEngine._notify_trader_fill`: look the trader up in the registry
and run the callback; exceptions from the callback are caught and logged,
so the trader keeps whatever mutations the callback made before failing
(see `Trader.on_order_filled`). -/
def TradingEngine.notify_trader_fill (e : TradingEngine) (order : Order)
    (quantity : Int) (price : Rat) : TradingEngine :=
  match alookup e.traders order.trader_id with
  | none => e
  | some trader =>
      { e with traders := aset e.traders order.trader_id (trader.on_order_filled order quantity price) }

/-- Result of `TradingEngine._execute_trade`: the engine, the two mutated
order objects, the book (its trade tape extended) and the emitted trade
record. -/
structure ExecResult where
  engine : TradingEngine
  buy : Order
  sell : Order
  book : OrderBook
  trade : Trade
deriving DecidableEq

/-- `TradingEngine._execute_trade`: fill both orders (the matching loop
always passes `quantity = min(..)`, so `Order.fill` cannot raise here —
`fillApplied` is that successful mutation), build the trade record — note
the source hardcodes `'side': 'BUY'` ("From the perspective of the
aggressive order") — push it to both tapes, bump the counters and fire the
two fill callbacks, buyer first. -/
def TradingEngine.execute_trade (e : TradingEngine) (buy_order sell_order : Order)
    (quantity : Int) (price : Rat) (orderbook : OrderBook) : ExecResult :=
  let buy' := buy_order.fillApplied quantity price
  let sell' := sell_order.fillApplied quantity price
  let trade : Trade :=
    { trade_id := e.total_trades + 1, symbol := buy_order.symbol,
      quantity := quantity, price := price,
      buyer_id := buy_order.trader_id, seller_id := sell_order.trader_id,
      buy_order_id := buy_order.order_id,
      sell_order_id := sell_order.order_id,
      side := OrderSide.BUY }
  let e1 := { e with
    trade_history := ringAppend e.trade_history trade 10000,
    total_trades := e.total_trades + 1,
    total_volume := e.total_volume + quantity }
  let bk1 := orderbook.add_trade trade
  let e2 := e1.notify_trader_fill buy' quantity price
  let e3 := e2.notify_trader_fill sell' quantity price
  { engine := e3, buy := buy', sell := sell', book := bk1, trade := trade }

/-- Result of a matching routine: the engine, the (mutated) incoming order,
the (mutated) book, and the trades emitted by this call, oldest first. -/
structure MatchResult where
  engine : TradingEngine
  order : Order
  book : OrderBook
  trades : List Trade
deriving DecidableEq

/-- One `while`-loop pass structure of `TradingEngine._match_buy_order`,
with explicit fuel.  Each pass that continues removes the fully-consumed
best ask from the book, so `asks.sideSize + 1` fuel always suffices (the
fuel-exhausted branch is unreachable then; see the fuel-adequacy lemmas).
When the resting ask is only partially consumed, `trade_quantity` was the
incoming order's whole remaining quantity (it is the minimum of the two),
so the loop guard `buy_order.quantity > 0` fails on re-entry and the loop
exits — the embedding returns directly there, writing the mutated resting
order back to the head of its bucket (the alias the deque holds). -/
def TradingEngine.match_buy_order_fuel :
    Nat → TradingEngine → Order → OrderBook → MatchResult
  | 0, e, buy_order, orderbook =>
      { engine := e, order := buy_order, book := orderbook, trades := [] }
  | n + 1, e, buy_order, orderbook =>
      if 0 < buy_order.quantity ∧ buy_order.is_active then
        match orderbook.get_best_ask with
        | none => { engine := e, order := buy_order, book := orderbook, trades := [] }
        | some best_ask =>
            if best_ask.price > buy_order.price then
              { engine := e, order := buy_order, book := orderbook, trades := [] }
            else
              let trade_quantity := min buy_order.quantity best_ask.quantity
              let trade_price := best_ask.price
              let r := e.execute_trade buy_order best_ask trade_quantity
                        trade_price orderbook
              if r.sell.quantity = 0 then
                let bk2 := (r.book.remove_order best_ask.order_id OrderSide.SELL).1
                let e2 := { r.engine with
                  active_orders := aerase r.engine.active_orders best_ask.order_id }
                let res := TradingEngine.match_buy_order_fuel n e2 r.buy bk2
                { engine := res.engine, order := res.order, book := res.book,
                  trades := r.trade :: res.trades }
              else
                { engine := r.engine, order := r.buy,
                  book := { r.book with
                    asks := r.book.asks.writeBack best_ask.price r.sell },
                  trades := [r.trade] }
      else { engine := e, order := buy_order, book := orderbook, trades := [] }

/-- `TradingEngine._match_buy_order`: run the loop with adequate fuel. -/
def TradingEngine.match_buy_order (e : TradingEngine) (buy_order : Order)
    (orderbook : OrderBook) : MatchResult :=
  TradingEngine.match_buy_order_fuel (orderbook.asks.sideSize + 1) e buy_order orderbook

/-- One `while`-loop pass structure of `TradingEngine._match_sell_order`
(mirror image of the buy loop; the resting best bid is the buy order of the
trade). -/
def TradingEngine.match_sell_order_fuel :
    Nat → TradingEngine → Order → OrderBook → MatchResult
  | 0, e, sell_order, orderbook =>
      { engine := e, order := sell_order, book := orderbook, trades := [] }
  | n + 1, e, sell_order, orderbook =>
      if 0 < sell_order.quantity ∧ sell_order.is_active then
        match orderbook.get_best_bid with
        | none => { engine := e, order := sell_order, book := orderbook, trades := [] }
        | some best_bid =>
            if best_bid.price < sell_order.price then
              { engine := e, order := sell_order, book := orderbook, trades := [] }
            else
              let trade_quantity := min sell_order.quantity best_bid.quantity
              let trade_price := best_bid.price
              let r := e.execute_trade best_bid sell_order trade_quantity
                        trade_price orderbook
              if r.buy.quantity = 0 then
                let bk2 := (r.book.remove_order best_bid.order_id OrderSide.BUY).1
                let e2 := { r.engine with
                  active_orders := aerase r.engine.active_orders best_bid.order_id }
                let res := TradingEngine.match_sell_order_fuel n e2 r.sell bk2
                { engine := res.engine, order := res.order, book := res.book,
                  trades := r.trade :: res.trades }
              else
                { engine := r.engine, order := r.sell,
                  book := { r.book with
                    bids := r.book.bids.writeBack best_bid.price r.buy },
                  trades := [r.trade] }
      else { engine := e, order := sell_order, book := orderbook, trades := [] }

/-- `TradingEngine._match_sell_order`. -/
def TradingEngine.match_sell_order (e : TradingEngine) (sell_order : Order)
    (orderbook : OrderBook) : MatchResult :=
  TradingEngine.match_sell_order_fuel (orderbook.bids.sideSize + 1) e sell_order orderbook

/-- `TradingEngine._match_order`: dispatch on the incoming side. -/
def TradingEngine.match_order (e : TradingEngine) (o : Order)
    (orderbook : OrderBook) : MatchResult :=
  if o.side = OrderSide.BUY then e.match_buy_order o orderbook
  else e.match_sell_order o orderbook

/-- `TradingEngine._process_order`: index the incoming order, fetch (or
create) its book, match it, then either rest the remainder on its own side
or drop it from the active index.  The book object the source mutates in
place is written back into the engine's book map at the end (equivalent:
nothing reads the map in between).  `add_order`'s symbol-mismatch branch
is unreachable here — the book was fetched under the order's own symbol —
and falls back to the unchanged book. -/
def TradingEngine.process_order (e : TradingEngine) (order : Order) :
    TradingEngine :=
  let e1 := { e with active_orders := aset e.active_orders order.order_id order }
  let p := e1.get_orderbook order.symbol
  let r := p.1.match_order order p.2
  if r.order.is_active ∧ 0 < r.order.quantity then
    let bk2 :=
      match r.book.add_order r.order with
      | Except.ok b => b
      | Except.error _ => r.book
    { r.engine with
      active_orders := aset r.engine.active_orders order.order_id r.order,
      orderbooks := aset r.engine.orderbooks order.symbol bk2 }
  else
    { r.engine with
      active_orders := aerase r.engine.active_orders order.order_id,
      orderbooks := aset r.engine.orderbooks order.symbol r.book }

/-- Drain a queue of submitted orders through the matching worker, in FIFO
order — the `_execution_loop` ignoring batching (which, as the spec notes,
does not change matching semantics). -/
def TradingEngine.process_orders (e : TradingEngine) (l : List Order) :
    TradingEngine :=
  l.foldl TradingEngine.process_order e

/-- Run a list of `_execute_trade` calls (used to state the position
conservation invariant over any sequence of fills the engine executes). -/
def TradingEngine.execute_trades (e : TradingEngine)
    (l : List (Order × Order × Int × Rat)) : TradingEngine :=
  l.foldl
    (fun acc x =>
      (acc.execute_trade x.1 x.2.1 x.2.2.1 x.2.2.2 (OrderBook.new x.1.symbol)).engine)
    e

/-- Sum of the registered traders' positions in one symbol (a trader
without the symbol key holds 0 of it). -/
def sumPositions (traders : List (String × Trader)) (sym : String) : Int :=
  (traders.map (fun kv => (alookup kv.2.positions sym).getD 0)).sum

/-- The trader registry knows this id, and that trader's `positions` and
`average_costs` dicts have the symbol's key (as `Trader.__init__` sets up
for every symbol in the trader's list). -/
def registeredFor (e : TradingEngine) (id : String) (sym : String) : Bool :=
  match alookup e.traders id with
  | none => false
  | some t =>
      (alookup t.positions sym).isSome && (alookup t.average_costs sym).isSome

/-- Well-formed book side: every bucket is nonempty and holds only orders
priced at the bucket's key (what `add_order`/`remove_order` maintain). -/
def SideWF (s : OrderBookSide) : Prop :=
  ∀ pb ∈ s.price_levels, pb.2 ≠ [] ∧ ∀ o ∈ pb.2, o.price = pb.1

instance (s : OrderBookSide) : Decidable (SideWF s) := by
  unfold SideWF; infer_instance

/-- No zero-priced level on the side (a zero best price is falsy in Python
and defeats `get_best_order`, see its definition). -/
def SideNoZero (s : OrderBookSide) : Prop :=
  ∀ pb ∈ s.price_levels, pb.1 ≠ 0

instance (s : OrderBookSide) : Decidable (SideNoZero s) := by
  unfold SideNoZero; infer_instance

/-- The book invariant the engine maintains between order processings. -/
def BookInv (bk : OrderBook) : Prop :=
  bk.bids.is_bid_side = true ∧ bk.asks.is_bid_side = false ∧
  SideWF bk.bids ∧ SideWF bk.asks ∧
  SideNoZero bk.bids ∧ SideNoZero bk.asks ∧
  bk.is_crossed = false

instance (bk : OrderBook) : Decidable (BookInv bk) := by
  unfold BookInv; infer_instance

/-- The engine invariant: every registered book is keyed by its own symbol
and satisfies the book invariant. -/
def EngineInv (e : TradingEngine) : Prop :=
  ∀ pb ∈ e.orderbooks, (pb.2).symbol = pb.1 ∧ BookInv pb.2

instance (e : TradingEngine) : Decidable (EngineInv e) := by
  unfold EngineInv; infer_instance

/-- Kernel-computable uppercase map: the embedding of Python's
`str.upper()` (the importer's data is ASCII). -/
def strUpper (s : String) : String := String.mk (s.data.map Char.toUpper)

/-- A parsed CSV row as `import_orders_from_csv` reads it through pandas:
the five required columns, already carrying the numeric types the
validator demands (`quantity` integral, `price` numeric; the optional
timestamp column carries no modelled information). -/
structure CsvRow where
  trader_id : String
  symbol : String
  side : String
  quantity : Int
  price : Rat
deriving DecidableEq

/-- A parsed CSV file: the header's column names and the data rows. -/
structure CsvFile where
  columns : List String
  rows : List CsvRow
deriving DecidableEq

/-- `CSVImporter.validate_csv_format`'s result (`success` plus the
collected whole-file error messages; the source joins them into one
string). -/
structure ValidationResult where
  success : Bool
  errors : List String
deriving DecidableEq

/-- The importer's required columns. -/
def required_columns : List String :=
  ["trader_id", "symbol", "side", "quantity", "price"]

/-- The side spellings `validate_csv_format` accepts. -/
def valid_sides : List String := ["BUY", "SELL", "buy", "sell"]

/-- `CSVImporter.validate_csv_format`: fail when a required column is
missing; otherwise collect whole-file value errors — any non-positive
quantity, any non-positive price, any side outside `valid_sides` — and
fail if any were found. -/
def validate_csv_format (f : CsvFile) : ValidationResult :=
  let missing := required_columns.filter (fun c => !(f.columns.contains c))
  if missing.isEmpty then
    let errors :=
      (if f.rows.any (fun r => r.quantity ≤ 0) then
        ["Quantity values must be positive"] else []) ++
      (if f.rows.any (fun r => r.price ≤ 0) then
        ["Price values must be positive"] else []) ++
      (if f.rows.any (fun r => !(valid_sides.contains r.side)) then
        ["Invalid side values"] else [])
    if errors.isEmpty then { success := true, errors := [] }
    else { success := false, errors := errors }
  else { success := false, errors := ["Missing required columns"] }

/-- `CSVImporter.import_orders_from_csv`'s result: the per-row loop's
counters and messages, plus the orders actually handed to
`engine.submit_order`, in row order. -/
structure ImportResult where
  success : Bool
  orders_submitted : Nat
  orders_failed : Nat
  errors : List String
  submitted : List Order
deriving DecidableEq

/-- The importer's per-row loop: uppercase the side, reject anything that
is not BUY/SELL with a per-row message, otherwise build the order
(symbol uppercased, the row number standing in for the uuid) and submit
it. -/
def submit_rows : Nat → List CsvRow → ImportResult
  | _, [] =>
      { success := true, orders_submitted := 0, orders_failed := 0,
        errors := [], submitted := [] }
  | index, row :: rest =>
      let side_str := strUpper row.side
      if side_str = "BUY" ∨ side_str = "SELL" then
        let side := if side_str = "BUY" then OrderSide.BUY else OrderSide.SELL
        let o := Order.new index row.trader_id (strUpper row.symbol) side
                  row.quantity row.price
        let r := submit_rows (index + 1) rest
        { r with orders_submitted := r.orders_submitted + 1,
                 submitted := o :: r.submitted }
      else
        let r := submit_rows (index + 1) rest
        { r with orders_failed := r.orders_failed + 1,
                 errors := ("Row " ++ toString index ++ ": Invalid side") :: r.errors }

/-- `CSVImporter.import_orders_from_csv`: validate the whole file first and
return the validation failure unchanged (nothing submitted); only a file
that passes validation reaches the per-row submission loop. -/
def import_orders_from_csv (f : CsvFile) : ImportResult :=
  let v := validate_csv_format f
  if v.success = false then
    { success := false, orders_submitted := 0, orders_failed := 0,
      errors := v.errors, submitted := [] }
  else submit_rows 1 f.rows

/-- A concrete import file: a complete header, one fully valid row
(BUY 10 @ 100) followed by one row with a non-positive quantity. -/
def csvFileBad : CsvFile :=
  { columns := required_columns,
    rows := [{ trader_id := "T1", symbol := "AAPL", side := "BUY", quantity := 10, price := 100 },
             { trader_id := "T2", symbol := "AAPL", side := "SELL", quantity := -5, price := 100 }] }

/-- A concrete import file whose single row passes every validation. -/
def csvFileGood : CsvFile :=
  { columns := required_columns,
    rows := [{ trader_id := "T3", symbol := "msft", side := "buy", quantity := 7, price := 50 }] }

/-- Replay, onto an order, the fills that a trade list assigns to it (by
its id on either side of each trade): reconstructs the fill sequence the
engine applied to that order object through its aliases. -/
def Order.replayFills (o : Order) (ts : List Trade) : Order :=
  ts.foldl
    (fun acc t =>
      if t.buy_order_id = acc.order_id ∨ t.sell_order_id = acc.order_id then
        acc.fillApplied t.quantity t.price
      else acc)
    o

end HftSim

namespace HftSim

/-! ### Helper lemmas on the association-list primitives -/

theorem alookup_mem {α β : Type} [DecidableEq α] :
    ∀ {l : List (α × β)} {k : α} {v : β}, alookup l k = some v → (k, v) ∈ l := by
  intro l
  induction l with
  | nil => intro k v h; simp [alookup] at h
  | cons hd tl ih =>
      intro k v h
      obtain ⟨k0, v0⟩ := hd
      by_cases hk : k0 = k
      · subst hk
        simp [alookup] at h
        subst h
        exact List.mem_cons_self _ _
      · simp [alookup, hk] at h
        exact List.mem_cons_of_mem _ (ih h)

theorem mem_aset {α β : Type} [DecidableEq α] :
    ∀ {l : List (α × β)} {k : α} {v : β} {x : α × β},
      x ∈ aset l k v → x = (k, v) ∨ x ∈ l := by
  intro l
  induction l with
  | nil => intro k v x h; simp [aset] at h; exact Or.inl h
  | cons hd tl ih =>
      intro k v x h
      obtain ⟨k0, v0⟩ := hd
      by_cases hk : k0 = k
      · subst hk
        simp [aset] at h
        rcases h with h | h
        · exact Or.inl (by simp [h])
        · exact Or.inr (List.mem_cons_of_mem _ h)
      · simp [aset, hk] at h
        rcases h with h | h
        · exact Or.inr (by simp [h])
        · rcases ih h with h' | h'
          · exact Or.inl h'
          · exact Or.inr (List.mem_cons_of_mem _ h')

theorem alookup_aset {α β : Type} [DecidableEq α] :
    ∀ (l : List (α × β)) (k : α) (v : β) (k' : α),
      alookup (aset l k v) k' = if k' = k then some v else alookup l k' := by
  intro l
  induction l with
  | nil =>
      intro k v k'
      simp only [aset, alookup]
      by_cases h : k' = k
      · subst h; simp
      · rw [if_neg (fun hh => h hh.symm), if_neg h]
  | cons hd tl ih =>
      intro k v k'
      obtain ⟨k0, v0⟩ := hd
      by_cases hk : k0 = k
      · subst hk
        simp only [aset, if_pos rfl, alookup]
        by_cases h : k' = k0
        · subst h; simp
        · rw [if_neg (fun hh => h hh.symm), if_neg h, if_neg (fun hh => h hh.symm)]
      · simp only [aset, if_neg hk, alookup]
        by_cases h : k0 = k'
        · subst h
          rw [if_pos rfl, if_neg hk, if_pos rfl]
        · rw [if_neg h, ih]
          by_cases h2 : k' = k <;> simp [h2, h]

/-! ### C5 — Order construction performs no validation -/

/-- Counterexample to C5: constructing an order with `quantity = -5` and
`price = 0` does not fail — it produces a `PENDING` order. -/
theorem order_new_accepts_nonpositive_cex :
    (Order.new 1 "T1" "AAPL" OrderSide.BUY (-5) 0).status = OrderStatus.PENDING ∧
    (Order.new 1 "T1" "AAPL" OrderSide.BUY (-5) 0).quantity = -5 ∧
    (Order.new 1 "T1" "AAPL" OrderSide.BUY (-5) 0).price = 0 :=
  ⟨rfl, rfl, rfl⟩

/-- C5 (corrected): `Order.__init__` performs no argument validation — for
every quantity and price, including non-positive ones, construction
succeeds and yields an order with status `PENDING`, remaining quantity =
original quantity = the argument, the given price, and no fills. -/
theorem order_new_never_fails (order_id : Nat) (trader_id symbol : String)
    (side : OrderSide) (quantity : Int) (price : Rat) :
    (Order.new order_id trader_id symbol side quantity price).status = OrderStatus.PENDING ∧
    (Order.new order_id trader_id symbol side quantity price).quantity = quantity ∧
    (Order.new order_id trader_id symbol side quantity price).original_quantity = quantity ∧
    (Order.new order_id trader_id symbol side quantity price).price = price ∧
    (Order.new order_id trader_id symbol side quantity price).fills = [] :=
  ⟨rfl, rfl, rfl, rfl, rfl⟩

/-! ### C6 — Order.fill -/

/-- C6 (confirmed): `Order.fill` fails (raises `ValueError`) exactly when
the fill quantity exceeds the remaining quantity — the pure embedding
returns `Except.error`, so the order is untouched on error — and on
success appends the fill record, decrements the remaining quantity,
sets the status to `FILLED` exactly when the new remaining quantity is 0
and to `PARTIALLY_FILLED` otherwise, and preserves
`sum(fills.qty) + remaining == original`. -/
theorem order_fill_spec (o : Order) (q : Int) (p : Rat)
    (hinv : o.get_filled_quantity + o.quantity = o.original_quantity) :
    (q > o.quantity → o.fill q p = Except.error ("Fill quantity exceeds remaining order quantity")) ∧
    (q ≤ o.quantity → ∃ o', o.fill q p = Except.ok o' ∧
      o'.fills = o.fills ++ [{ quantity := q, price := p }] ∧
      o'.quantity = o.quantity - q ∧
      (o'.status = OrderStatus.FILLED ↔ o'.quantity = 0) ∧
      (o'.status = OrderStatus.FILLED ∨ o'.status = OrderStatus.PARTIALLY_FILLED) ∧
      o'.original_quantity = o.original_quantity ∧
      o'.get_filled_quantity + o'.quantity = o'.original_quantity) := by
  constructor
  · intro h
    simp [Order.fill, h]
  · intro h
    have hng : ¬ (q > o.quantity) := not_lt.mpr h
    refine ⟨{ o with
        fills := o.fills ++ [{ quantity := q, price := p }],
        quantity := o.quantity - q,
        status := if o.quantity - q = 0 then OrderStatus.FILLED else OrderStatus.PARTIALLY_FILLED },
      by rw [Order.fill, if_neg hng], rfl, rfl, ?_, ?_, rfl, ?_⟩
    · by_cases hc : o.quantity - q = 0 <;> simp [hc]
    · by_cases hc : o.quantity - q = 0 <;> simp [hc]
    · simp only [Order.get_filled_quantity, List.map_append, List.sum_append,
        List.map_cons, List.map_nil, List.sum_cons, List.sum_nil]
      simp only [Order.get_filled_quantity] at hinv
      omega

/-- Witness for C6 at a concrete order. -/
theorem order_fill_spec_witness :
    ∃ o', (Order.new 7 "T" "S" OrderSide.BUY 5 2).fill 2 3 = Except.ok o' ∧
      o'.fills = (Order.new 7 "T" "S" OrderSide.BUY 5 2).fills ++ [{ quantity := 2, price := 3 }] ∧
      o'.quantity = (Order.new 7 "T" "S" OrderSide.BUY 5 2).quantity - 2 ∧
      (o'.status = OrderStatus.FILLED ↔ o'.quantity = 0) ∧
      (o'.status = OrderStatus.FILLED ∨ o'.status = OrderStatus.PARTIALLY_FILLED) ∧
      o'.original_quantity = (Order.new 7 "T" "S" OrderSide.BUY 5 2).original_quantity ∧
      o'.get_filled_quantity + o'.quantity = o'.original_quantity :=
  (order_fill_spec (Order.new 7 "T" "S" OrderSide.BUY 5 2) 2 3 (by decide)).2 (by decide)

/-! ### C7 — cancel, and fill on a cancelled order -/

/-- Counterexample to C7: `fill` does not check the status, so a
`CANCELLED` order with remaining quantity accepts a fill and its status
moves to `PARTIALLY_FILLED` — `CANCELLED` is not terminal under
`apply_fill`. -/
theorem fill_resurrects_cancelled_cex :
    ((Order.new 1 "T" "S" OrderSide.BUY 5 10).cancel).status = OrderStatus.CANCELLED ∧
    (((Order.new 1 "T" "S" OrderSide.BUY 5 10).cancel).fill 2 10).toOption.map Order.status
      = some OrderStatus.PARTIALLY_FILLED := by
  constructor
  · rfl
  · rfl

/-- C7 (corrected): `cancel` transitions to `CANCELLED` only from
`PENDING` or `PARTIALLY_FILLED` and is a no-op from any other status
(in particular from `CANCELLED`); but `fill` performs no status check,
so a fill with `qty ≤ remaining` on a `CANCELLED` order succeeds and
moves the status to `FILLED` or `PARTIALLY_FILLED`. -/
theorem cancel_transitions_and_fill_ignores_status (o : Order) :
    ((o.status = OrderStatus.PENDING ∨ o.status = OrderStatus.PARTIALLY_FILLED) →
      o.cancel = { o with status := OrderStatus.CANCELLED }) ∧
    ((o.status ≠ OrderStatus.PENDING ∧ o.status ≠ OrderStatus.PARTIALLY_FILLED) →
      o.cancel = o) ∧
    (∀ (q : Int) (p : Rat), o.status = OrderStatus.CANCELLED → q ≤ o.quantity →
      (o.fill q p).toOption.map Order.status =
        some (if o.quantity - q = 0 then OrderStatus.FILLED else OrderStatus.PARTIALLY_FILLED)) := by
  refine ⟨?_, ?_, ?_⟩
  · intro h
    rw [Order.cancel, if_pos h]
  · intro h
    rw [Order.cancel, if_neg]
    rintro (h1 | h2)
    · exact h.1 h1
    · exact h.2 h2
  · intro q p _ hq
    rw [Order.fill, if_neg (not_lt.mpr hq)]
    rfl

/-- Witness for C7 at concrete orders. -/
theorem cancel_transitions_witness :
    (Order.new 2 "T" "S" OrderSide.BUY 5 10).cancel
      = { (Order.new 2 "T" "S" OrderSide.BUY 5 10) with status := OrderStatus.CANCELLED } ∧
    (((Order.new 3 "T" "S" OrderSide.BUY 5 10).cancel).fill 5 10).toOption.map Order.status
      = some (if ((Order.new 3 "T" "S" OrderSide.BUY 5 10).cancel).quantity - 5 = 0
              then OrderStatus.FILLED else OrderStatus.PARTIALLY_FILLED) :=
  ⟨(cancel_transitions_and_fill_ignores_status (Order.new 2 "T" "S" OrderSide.BUY 5 10)).1
      (Or.inl rfl),
   (cancel_transitions_and_fill_ignores_status ((Order.new 3 "T" "S" OrderSide.BUY 5 10).cancel)).2.2
      5 10 (by decide) (by decide)⟩

/-! ### C10 — get_best_order deadlocks on its own lock -/

/-- C10 (code bug): the lock-explicit embedding of
`OrderBookSide.get_best_order` never returns, for any lock state and any
side: the method acquires the side's non-reentrant `threading.Lock` and
then calls `get_best_price`, which blocks acquiring the same lock. -/
theorem get_best_order_locked_never_returns (locked : Bool) (s : OrderBookSide) :
    OrderBookSide.get_best_order_locked locked s = none := by
  cases locked <;>
    simp [OrderBookSide.get_best_order_locked, OrderBookSide.get_best_price_locked]

/-! ### C1 — the trade record's aggressor-side field -/

/-- C1 (code bug): `_execute_trade` hardcodes the trade record's side field
to `'BUY'` (its comment says "From the perspective of the aggressive
order"), so a SELL aggressor crossing a resting bid still emits a trade
whose side field is BUY: here a SELL 5@100 from B against a resting
BUY 5@100 from A. -/
theorem trade_record_side_hardcoded_buy_cex :
    (TradingEngine.new.match_sell_order (Order.new 2 "B" "AAPL" OrderSide.SELL 5 100)
      { OrderBook.new "AAPL" with
        bids := (OrderBookSide.new true).add_order (Order.new 1 "A" "AAPL" OrderSide.BUY 5 100) }).trades.map Trade.side
      = [OrderSide.BUY] ∧
    (Order.new 2 "B" "AAPL" OrderSide.SELL 5 100).side = OrderSide.SELL := by
  constructor
  · rfl
  · rfl

end HftSim

namespace HftSim

/-! ### Field-preservation lemmas for the fill mutation -/

theorem fillApplied_order_id (o : Order) (q : Int) (p : Rat) :
    (o.fillApplied q p).order_id = o.order_id := by
  unfold Order.fillApplied; split <;> rfl

theorem fillApplied_price (o : Order) (q : Int) (p : Rat) :
    (o.fillApplied q p).price = o.price := by
  unfold Order.fillApplied; split <;> rfl

theorem fillApplied_side (o : Order) (q : Int) (p : Rat) :
    (o.fillApplied q p).side = o.side := by
  unfold Order.fillApplied; split <;> rfl

theorem fillApplied_trader_id (o : Order) (q : Int) (p : Rat) :
    (o.fillApplied q p).trader_id = o.trader_id := by
  unfold Order.fillApplied; split <;> rfl

theorem fillApplied_symbol (o : Order) (q : Int) (p : Rat) :
    (o.fillApplied q p).symbol = o.symbol := by
  unfold Order.fillApplied; split <;> rfl

/-- The fidelity link between the total mutation and `Order.fill`: whenever
the fill does not exceed the remaining quantity — as at every call site in
the matching loop, where the quantity is the minimum of the two remaining
quantities — `Order.fill` succeeds with exactly `fillApplied`'s result. -/
theorem fill_eq_applied (o : Order) (q : Int) (p : Rat) (h : q ≤ o.quantity) :
    o.fill q p = Except.ok (o.fillApplied q p) := by
  unfold Order.fill Order.fillApplied
  rw [if_neg (not_lt.mpr h), if_neg (not_lt.mpr h)]

theorem fillApplied_quantity (o : Order) (q : Int) (p : Rat) (h : q ≤ o.quantity) :
    (o.fillApplied q p).quantity = o.quantity - q := by
  unfold Order.fillApplied
  rw [if_neg (not_lt.mpr h)]

/-! ### Book-side lemmas -/

theorem head?_mem {α : Type} {l : List α} {a : α} (h : l.head? = some a) : a ∈ l := by
  cases l with
  | nil => simp at h
  | cons x xs => simp at h; simp [h]

theorem get_best_order_mem {s : OrderBookSide} {R : Order}
    (h : s.get_best_order = some R) : R ∈ s.sideOrders := by
  unfold OrderBookSide.get_best_order at h
  cases hbp : s.get_best_price with
  | none => rw [hbp] at h; simp at h
  | some p =>
      rw [hbp] at h
      simp only [] at h
      by_cases hz : p = 0
      · rw [if_pos hz] at h; simp at h
      · rw [if_neg hz] at h
        cases hlk : alookup s.price_levels p with
        | none => rw [hlk] at h; simp at h
        | some bucket =>
            rw [hlk] at h
            simp only [] at h
            have hmem : (p, bucket) ∈ s.price_levels := alookup_mem hlk
            have hR : R ∈ bucket := head?_mem h
            unfold OrderBookSide.sideOrders
            exact List.mem_flatten.mpr
              ⟨bucket, List.mem_map_of_mem Prod.snd hmem, hR⟩

theorem mem_flatten_eraseIdFromLevels :
    ∀ (l : List (Rat × List Order)) (oid : Nat) (o : Order),
      o ∈ ((eraseIdFromLevels l oid).map Prod.snd).flatten →
      o ∈ (l.map Prod.snd).flatten := by
  intro l
  induction l with
  | nil => intro oid o h; simp [eraseIdFromLevels] at h
  | cons hd tl ih =>
      intro oid o h
      obtain ⟨p, b⟩ := hd
      by_cases hc : bucketContains b oid
      · rw [eraseIdFromLevels, if_pos hc] at h
        by_cases he : (b.eraseP (fun x => x.order_id = oid)).isEmpty
        · rw [if_pos he] at h
          simp only [List.map_cons, List.flatten_cons, List.mem_append]
          exact Or.inr h
        · rw [if_neg he] at h
          simp only [List.map_cons, List.flatten_cons, List.mem_append] at h ⊢
          rcases h with h | h
          · exact Or.inl ((List.eraseP_sublist b).mem h)
          · exact Or.inr h
      · rw [eraseIdFromLevels, if_neg hc] at h
        simp only [List.map_cons, List.flatten_cons, List.mem_append] at h ⊢
        rcases h with h | h
        · exact Or.inl h
        · exact Or.inr (ih oid o h)

theorem sideOrders_remove_subset {s : OrderBookSide} {oid : Nat} :
    ∀ o ∈ ((s.remove_order oid).1).sideOrders, o ∈ s.sideOrders := by
  intro o h
  unfold OrderBookSide.remove_order at h
  by_cases hc : s.containsId oid
  · rw [if_pos hc] at h
    exact mem_flatten_eraseIdFromLevels s.price_levels oid o h
  · rw [if_neg hc] at h
    exact h

/-! ### Projection lemmas for `_execute_trade` -/

theorem execute_trade_book_asks (e : TradingEngine) (b s : Order) (q : Int)
    (p : Rat) (bk : OrderBook) : (e.execute_trade b s q p bk).book.asks = bk.asks := rfl

theorem execute_trade_book_bids (e : TradingEngine) (b s : Order) (q : Int)
    (p : Rat) (bk : OrderBook) : (e.execute_trade b s q p bk).book.bids = bk.bids := rfl

theorem execute_trade_book_symbol (e : TradingEngine) (b s : Order) (q : Int)
    (p : Rat) (bk : OrderBook) : (e.execute_trade b s q p bk).book.symbol = bk.symbol := rfl

theorem execute_trade_buy (e : TradingEngine) (b s : Order) (q : Int)
    (p : Rat) (bk : OrderBook) : (e.execute_trade b s q p bk).buy = b.fillApplied q p := rfl

theorem execute_trade_sell (e : TradingEngine) (b s : Order) (q : Int)
    (p : Rat) (bk : OrderBook) : (e.execute_trade b s q p bk).sell = s.fillApplied q p := rfl

theorem notify_trader_fill_orderbooks (e : TradingEngine) (o : Order) (q : Int)
    (p : Rat) : (e.notify_trader_fill o q p).orderbooks = e.orderbooks := by
  unfold TradingEngine.notify_trader_fill
  cases alookup e.traders o.trader_id <;> rfl

theorem execute_trade_orderbooks (e : TradingEngine) (b s : Order) (q : Int)
    (p : Rat) (bk : OrderBook) :
    (e.execute_trade b s q p bk).engine.orderbooks = e.orderbooks := by
  simp [TradingEngine.execute_trade, notify_trader_fill_orderbooks]

/-! ### C2 — every trade carries the resting (maker) order's price -/

theorem match_buy_fuel_maker (n : Nat) :
    ∀ (e : TradingEngine) (I : Order) (bk : OrderBook),
      ∀ t ∈ (TradingEngine.match_buy_order_fuel n e I bk).trades,
        ∃ R ∈ bk.asks.sideOrders,
          t.sell_order_id = R.order_id ∧ t.price = R.price ∧ R.price ≤ I.price := by
  induction n with
  | zero => intro e I bk t ht; simp [TradingEngine.match_buy_order_fuel] at ht
  | succ n ih =>
      intro e I bk t ht
      rw [TradingEngine.match_buy_order_fuel] at ht
      by_cases hg : 0 < I.quantity ∧ I.is_active
      · rw [if_pos hg] at ht
        cases hba : bk.get_best_ask with
        | none => rw [hba] at ht; simp at ht
        | some best_ask =>
            rw [hba] at ht
            simp only [] at ht
            have hmem : best_ask ∈ bk.asks.sideOrders := get_best_order_mem hba
            by_cases hp : best_ask.price > I.price
            · rw [if_pos hp] at ht; simp at ht
            · rw [if_neg hp] at ht
              by_cases hz : (e.execute_trade I best_ask (min I.quantity best_ask.quantity) best_ask.price bk).sell.quantity = 0
              · rw [if_pos hz] at ht
                simp only [List.mem_cons] at ht
                rcases ht with ht | ht
                · subst ht
                  exact ⟨best_ask, hmem, rfl, rfl, not_lt.mp hp⟩
                · have := ih _ _ _ t ht
                  rcases this with ⟨R, hR, h1, h2, h3⟩
                  refine ⟨R, ?_, h1, h2, ?_⟩
                  · have : R ∈ bk.asks.sideOrders := by
                      have hRs :
                          R ∈ (((e.execute_trade I best_ask (min I.quantity best_ask.quantity) best_ask.price bk).book.remove_order best_ask.order_id OrderSide.SELL).1).asks.sideOrders := hR
                      rw [OrderBook.remove_order] at hRs
                      simp only [if_neg (by simp : ¬ (OrderSide.SELL = OrderSide.BUY))] at hRs
                      have := sideOrders_remove_subset _ hRs
                      rwa [execute_trade_book_asks] at this
                    exact this
                  · rw [execute_trade_buy, fillApplied_price] at h3
                    exact h3
              · rw [if_neg hz] at ht
                simp only [List.mem_cons, List.not_mem_nil, or_false] at ht
                subst ht
                exact ⟨best_ask, hmem, rfl, rfl, not_lt.mp hp⟩
      · rw [if_neg hg] at ht; simp at ht

theorem match_sell_fuel_maker (n : Nat) :
    ∀ (e : TradingEngine) (I : Order) (bk : OrderBook),
      ∀ t ∈ (TradingEngine.match_sell_order_fuel n e I bk).trades,
        ∃ R ∈ bk.bids.sideOrders,
          t.buy_order_id = R.order_id ∧ t.price = R.price ∧ I.price ≤ R.price := by
  induction n with
  | zero => intro e I bk t ht; simp [TradingEngine.match_sell_order_fuel] at ht
  | succ n ih =>
      intro e I bk t ht
      rw [TradingEngine.match_sell_order_fuel] at ht
      by_cases hg : 0 < I.quantity ∧ I.is_active
      · rw [if_pos hg] at ht
        cases hbb : bk.get_best_bid with
        | none => rw [hbb] at ht; simp at ht
        | some best_bid =>
            rw [hbb] at ht
            simp only [] at ht
            have hmem : best_bid ∈ bk.bids.sideOrders := get_best_order_mem hbb
            by_cases hp : best_bid.price < I.price
            · rw [if_pos hp] at ht; simp at ht
            · rw [if_neg hp] at ht
              by_cases hz : (e.execute_trade best_bid I (min I.quantity best_bid.quantity) best_bid.price bk).buy.quantity = 0
              · rw [if_pos hz] at ht
                simp only [List.mem_cons] at ht
                rcases ht with ht | ht
                · subst ht
                  exact ⟨best_bid, hmem, rfl, rfl, not_lt.mp hp⟩
                · have := ih _ _ _ t ht
                  rcases this with ⟨R, hR, h1, h2, h3⟩
                  refine ⟨R, ?_, h1, h2, ?_⟩
                  · have hRs :
                        R ∈ (((e.execute_trade best_bid I (min I.quantity best_bid.quantity) best_bid.price bk).book.remove_order best_bid.order_id OrderSide.BUY).1).bids.sideOrders := hR
                    rw [OrderBook.remove_order] at hRs
                    simp only [if_pos rfl] at hRs
                    have := sideOrders_remove_subset _ hRs
                    rwa [execute_trade_book_bids] at this
                  · rw [execute_trade_sell, fillApplied_price] at h3
                    exact h3
              · rw [if_neg hz] at ht
                simp only [List.mem_cons, List.not_mem_nil, or_false] at ht
                subst ht
                exact ⟨best_bid, hmem, rfl, rfl, not_lt.mp hp⟩
      · rw [if_neg hg] at ht; simp at ht

/-- C2 (confirmed): every trade a matching call emits carries the resting
(maker) order's limit price — for an aggressing BUY, the price of a best
resting ask consumed in that iteration, never above the aggressor's limit;
for an aggressing SELL, the price of a best resting bid, never below the
aggressor's limit. -/
theorem trades_at_maker_price (e : TradingEngine) (I : Order) (bk : OrderBook) :
    (∀ t ∈ (e.match_buy_order I bk).trades,
      ∃ R ∈ bk.asks.sideOrders,
        t.sell_order_id = R.order_id ∧ t.price = R.price ∧ R.price ≤ I.price) ∧
    (∀ t ∈ (e.match_sell_order I bk).trades,
      ∃ R ∈ bk.bids.sideOrders,
        t.buy_order_id = R.order_id ∧ t.price = R.price ∧ I.price ≤ R.price) :=
  ⟨match_buy_fuel_maker _ e I bk, match_sell_fuel_maker _ e I bk⟩

/-- Witness for C2: the spec's S2 scenario — resting SELL 5@101 from A,
aggressor BUY 5@105 from B; the emitted trade prices at 101, the maker's
limit. -/
theorem trades_at_maker_price_witness :
    ∃ R ∈ ({ OrderBook.new "AAPL" with
        asks := (OrderBookSide.new false).add_order (Order.new 1 "A" "AAPL" OrderSide.SELL 5 101) } : OrderBook).asks.sideOrders,
      ({ trade_id := 1, symbol := "AAPL", quantity := 5, price := 101,
         buyer_id := "B", seller_id := "A", buy_order_id := 2, sell_order_id := 1,
         side := OrderSide.BUY } : Trade).sell_order_id = R.order_id ∧
      ({ trade_id := 1, symbol := "AAPL", quantity := 5, price := 101,
         buyer_id := "B", seller_id := "A", buy_order_id := 2, sell_order_id := 1,
         side := OrderSide.BUY } : Trade).price = R.price ∧
      R.price ≤ (Order.new 2 "B" "AAPL" OrderSide.BUY 5 105).price :=
  (trades_at_maker_price TradingEngine.new (Order.new 2 "B" "AAPL" OrderSide.BUY 5 105)
      { OrderBook.new "AAPL" with
        asks := (OrderBookSide.new false).add_order (Order.new 1 "A" "AAPL" OrderSide.SELL 5 101) }).1
    { trade_id := 1, symbol := "AAPL", quantity := 5, price := 101,
      buyer_id := "B", seller_id := "A", buy_order_id := 2, sell_order_id := 1,
      side := OrderSide.BUY }
    (by decide)

end HftSim

namespace HftSim

/-! ### Extremum lemmas (the lazily-cleaned price heap's top) -/

theorem extremum?_eq_none_iff (b : Bool) (l : List Rat) :
    extremum? b l = none ↔ l = [] := by
  cases l with
  | nil => simp [extremum?]
  | cons p rest =>
      rw [extremum?]
      cases h : extremum? b rest <;> simp

theorem extremum?_le (l : List Rat) :
    ∀ m : Rat, extremum? false l = some m → ∀ x ∈ l, m ≤ x := by
  induction l with
  | nil => intro m h; simp [extremum?] at h
  | cons p rest ih =>
      intro m h x hx
      rw [extremum?] at h
      cases hr : extremum? false rest with
      | none =>
          rw [hr] at h
          simp at h
          have hnil : rest = [] := (extremum?_eq_none_iff false rest).mp hr
          subst hnil
          simp at hx
          subst hx
          simp [h]
      | some q =>
          rw [hr] at h
          simp at h
          rcases List.mem_cons.mp hx with hx | hx
          · subst hx
            rw [← h]
            exact min_le_left _ _
          · calc m = min p q := h.symm
              _ ≤ q := min_le_right _ _
              _ ≤ x := ih q hr x hx

theorem extremum?_ge (l : List Rat) :
    ∀ m : Rat, extremum? true l = some m → ∀ x ∈ l, x ≤ m := by
  induction l with
  | nil => intro m h; simp [extremum?] at h
  | cons p rest ih =>
      intro m h x hx
      rw [extremum?] at h
      cases hr : extremum? true rest with
      | none =>
          rw [hr] at h
          simp at h
          have hnil : rest = [] := (extremum?_eq_none_iff true rest).mp hr
          subst hnil
          simp at hx
          subst hx
          simp [h]
      | some q =>
          rw [hr] at h
          simp at h
          rcases List.mem_cons.mp hx with hx | hx
          · subst hx
            rw [← h]
            exact le_max_left _ _
          · calc x ≤ q := ih q hr x hx
              _ ≤ max p q := le_max_right _ _
              _ = m := h

/-! ### Well-formed-side lemmas -/

theorem mem_nonemptyPrices {s : OrderBookSide} {p : Rat} {b : List Order}
    (h : (p, b) ∈ s.price_levels) (hb : b ≠ []) : p ∈ s.nonemptyPrices := by
  unfold OrderBookSide.nonemptyPrices
  refine List.mem_map.mpr ⟨(p, b), List.mem_filter.mpr ⟨h, ?_⟩, rfl⟩
  simpa using hb

theorem of_mem_nonemptyPrices {s : OrderBookSide} {p : Rat}
    (h : p ∈ s.nonemptyPrices) : ∃ b, (p, b) ∈ s.price_levels ∧ b ≠ [] := by
  unfold OrderBookSide.nonemptyPrices at h
  rcases List.mem_map.mp h with ⟨⟨p', b⟩, hmem, hp⟩
  rcases List.mem_filter.mp hmem with ⟨hmem', hne⟩
  subst hp
  exact ⟨b, hmem', by simpa using hne⟩

theorem order_price_mem_nonemptyPrices {s : OrderBookSide} {o : Order}
    (hWF : SideWF s) (ho : o ∈ s.sideOrders) : o.price ∈ s.nonemptyPrices := by
  unfold OrderBookSide.sideOrders at ho
  rcases List.mem_flatten.mp ho with ⟨b, hb, hob⟩
  rcases List.mem_map.mp hb with ⟨⟨p, b'⟩, hmem, hb'⟩
  cases hb'
  have := (hWF _ hmem).2 o hob
  rw [this]
  exact mem_nonemptyPrices hmem (by rintro rfl; simp at hob)

theorem get_best_order_facts {s : OrderBookSide} {R : Order}
    (hWF : SideWF s) (h : s.get_best_order = some R) :
    s.get_best_price = some R.price ∧
    ∃ bucket, alookup s.price_levels R.price = some bucket ∧ bucket.head? = some R := by
  unfold OrderBookSide.get_best_order at h
  cases hbp : s.get_best_price with
  | none => rw [hbp] at h; simp at h
  | some p =>
      rw [hbp] at h
      simp only [] at h
      by_cases hz : p = 0
      · rw [if_pos hz] at h; simp at h
      · rw [if_neg hz] at h
        cases hlk : alookup s.price_levels p with
        | none => rw [hlk] at h; simp at h
        | some bucket =>
            rw [hlk] at h
            simp only [] at h
            have hmem : (p, bucket) ∈ s.price_levels := alookup_mem hlk
            have hR : R ∈ bucket := head?_mem h
            have hp : R.price = p := (hWF _ hmem).2 R hR
            subst hp
            exact ⟨rfl, bucket, hlk, h⟩

/-! ### FIFO append within a price bucket -/

theorem alookup_append_right_none {α β : Type} [DecidableEq α] :
    ∀ (l : List (α × β)) (k : α) (v : β), alookup l k = none →
      alookup (l ++ [(k, v)]) k = some v := by
  intro l
  induction l with
  | nil => intro k v _; simp [alookup]
  | cons hd tl ih =>
      intro k v h
      obtain ⟨k0, v0⟩ := hd
      rw [alookup] at h
      by_cases hk : k0 = k
      · rw [if_pos hk] at h; simp at h
      · rw [if_neg hk] at h
        simp only [List.cons_append, alookup, if_neg hk]
        exact ih k v h

/-! ### C3 — price–time priority -/

/-- C3 (confirmed): price–time priority.  (1) Whenever `get_best_order`
yields a resting order on a well-formed side, that order has the best
price on its side — no resting order bids higher on the bid side, none
asks lower on the ask side — and it is the head of its price bucket,
i.e. the earliest-arrived order at that price, because (2)–(3)
`add_order` appends each arriving order at the back of its price bucket
(creating a singleton bucket for a new price).  (4) The spec's S4
scenario: with resting SELLs X then Y, 3@100 each, an aggressor
BUY 4@100 trades 3 from X then 1 from Y in that order, leaving X FILLED
and Y PARTIALLY_FILLED with 2 remaining at the head of the 100 bucket. -/
theorem price_time_priority :
    (∀ (s : OrderBookSide) (R : Order), SideWF s → s.get_best_order = some R →
      (∀ o ∈ s.sideOrders,
        if s.is_bid_side then o.price ≤ R.price else R.price ≤ o.price) ∧
      (∃ bucket, alookup s.price_levels R.price = some bucket ∧
        bucket.head? = some R)) ∧
    (∀ (s : OrderBookSide) (o : Order) (bucket : List Order),
      alookup s.price_levels o.price = some bucket →
      alookup (s.add_order o).price_levels o.price = some (bucket ++ [o])) ∧
    (∀ (s : OrderBookSide) (o : Order),
      alookup s.price_levels o.price = none →
      alookup (s.add_order o).price_levels o.price = some [o]) ∧
    ((TradingEngine.new.match_buy_order (Order.new 3 "TB" "AAPL" OrderSide.BUY 4 100)
        { OrderBook.new "AAPL" with
          asks := ((OrderBookSide.new false).add_order
              (Order.new 1 "TX" "AAPL" OrderSide.SELL 3 100)).add_order
              (Order.new 2 "TY" "AAPL" OrderSide.SELL 3 100) }).trades.map
        (fun t => (t.sell_order_id, t.quantity, t.price)) = [(1, 3, (100 : Rat)), (2, 1, (100 : Rat))] ∧
      ((Order.new 1 "TX" "AAPL" OrderSide.SELL 3 100).replayFills
        (TradingEngine.new.match_buy_order (Order.new 3 "TB" "AAPL" OrderSide.BUY 4 100)
          { OrderBook.new "AAPL" with
            asks := ((OrderBookSide.new false).add_order
                (Order.new 1 "TX" "AAPL" OrderSide.SELL 3 100)).add_order
                (Order.new 2 "TY" "AAPL" OrderSide.SELL 3 100) }).trades).status = OrderStatus.FILLED ∧
      ((Order.new 2 "TY" "AAPL" OrderSide.SELL 3 100).replayFills
        (TradingEngine.new.match_buy_order (Order.new 3 "TB" "AAPL" OrderSide.BUY 4 100)
          { OrderBook.new "AAPL" with
            asks := ((OrderBookSide.new false).add_order
                (Order.new 1 "TX" "AAPL" OrderSide.SELL 3 100)).add_order
                (Order.new 2 "TY" "AAPL" OrderSide.SELL 3 100) }).trades).status = OrderStatus.PARTIALLY_FILLED ∧
      ((Order.new 2 "TY" "AAPL" OrderSide.SELL 3 100).replayFills
        (TradingEngine.new.match_buy_order (Order.new 3 "TB" "AAPL" OrderSide.BUY 4 100)
          { OrderBook.new "AAPL" with
            asks := ((OrderBookSide.new false).add_order
                (Order.new 1 "TX" "AAPL" OrderSide.SELL 3 100)).add_order
                (Order.new 2 "TY" "AAPL" OrderSide.SELL 3 100) }).trades).quantity = 2 ∧
      (TradingEngine.new.match_buy_order (Order.new 3 "TB" "AAPL" OrderSide.BUY 4 100)
        { OrderBook.new "AAPL" with
          asks := ((OrderBookSide.new false).add_order
              (Order.new 1 "TX" "AAPL" OrderSide.SELL 3 100)).add_order
              (Order.new 2 "TY" "AAPL" OrderSide.SELL 3 100) }).book.asks.price_levels
        = [((100 : Rat),
            [{ Order.new 2 "TY" "AAPL" OrderSide.SELL 3 100 with
                quantity := 2, status := OrderStatus.PARTIALLY_FILLED,
                fills := [{ quantity := 1, price := 100 }] }])]) := by
  refine ⟨?_, ?_, ?_, ?_⟩
  · intro s R hWF h
    obtain ⟨hbp, bucket, hlk, hhd⟩ := get_best_order_facts hWF h
    refine ⟨?_, bucket, hlk, hhd⟩
    intro o ho
    have hop : o.price ∈ s.nonemptyPrices := order_price_mem_nonemptyPrices hWF ho
    unfold OrderBookSide.get_best_price at hbp
    cases hb : s.is_bid_side
    · rw [hb] at hbp
      simp only [hb, Bool.false_eq_true, if_false]
      exact extremum?_le _ _ hbp _ hop
    · rw [hb] at hbp
      simp only [hb, if_true]
      exact extremum?_ge _ _ hbp _ hop
  · intro s o bucket h
    unfold OrderBookSide.add_order
    rw [h]
    simp only []
    rw [alookup_aset]
    simp
  · intro s o h
    unfold OrderBookSide.add_order
    rw [h]
    exact alookup_append_right_none _ _ _ h
  · exact ⟨by decide, by decide, by decide, by decide, by decide⟩

/-- Witness for C3: a one-order ask side, the resting order is best and
heads its bucket; appending at the same price goes to the back of the
bucket; a new price opens a singleton bucket. -/
theorem price_time_priority_witness :
    (if ((OrderBookSide.new false).add_order (Order.new 5 "T" "S" OrderSide.SELL 2 7)).is_bid_side
     then (Order.new 5 "T" "S" OrderSide.SELL 2 7).price ≤ (Order.new 5 "T" "S" OrderSide.SELL 2 7).price
     else (Order.new 5 "T" "S" OrderSide.SELL 2 7).price ≤ (Order.new 5 "T" "S" OrderSide.SELL 2 7).price) ∧
    (∃ bucket,
      alookup ((OrderBookSide.new false).add_order (Order.new 5 "T" "S" OrderSide.SELL 2 7)).price_levels
          (Order.new 5 "T" "S" OrderSide.SELL 2 7).price = some bucket ∧
      bucket.head? = some (Order.new 5 "T" "S" OrderSide.SELL 2 7)) ∧
    alookup (((OrderBookSide.new false).add_order (Order.new 5 "T" "S" OrderSide.SELL 2 7)).add_order
        (Order.new 6 "T" "S" OrderSide.SELL 1 7)).price_levels
        (Order.new 6 "T" "S" OrderSide.SELL 1 7).price
      = some ([Order.new 5 "T" "S" OrderSide.SELL 2 7] ++ [Order.new 6 "T" "S" OrderSide.SELL 1 7]) ∧
    alookup (((OrderBookSide.new false).add_order (Order.new 5 "T" "S" OrderSide.SELL 2 7)).add_order
        (Order.new 7 "T" "S" OrderSide.SELL 1 9)).price_levels
        (Order.new 7 "T" "S" OrderSide.SELL 1 9).price
      = some [Order.new 7 "T" "S" OrderSide.SELL 1 9] :=
  ⟨(price_time_priority.1 ((OrderBookSide.new false).add_order (Order.new 5 "T" "S" OrderSide.SELL 2 7))
      (Order.new 5 "T" "S" OrderSide.SELL 2 7) (by decide) (by decide)).1
      (Order.new 5 "T" "S" OrderSide.SELL 2 7) (by decide),
   (price_time_priority.1 ((OrderBookSide.new false).add_order (Order.new 5 "T" "S" OrderSide.SELL 2 7))
      (Order.new 5 "T" "S" OrderSide.SELL 2 7) (by decide) (by decide)).2,
   price_time_priority.2.1 ((OrderBookSide.new false).add_order (Order.new 5 "T" "S" OrderSide.SELL 2 7))
      (Order.new 6 "T" "S" OrderSide.SELL 1 7) [Order.new 5 "T" "S" OrderSide.SELL 2 7] (by decide),
   price_time_priority.2.2.1 ((OrderBookSide.new false).add_order (Order.new 5 "T" "S" OrderSide.SELL 2 7))
      (Order.new 7 "T" "S" OrderSide.SELL 1 9) (by decide)⟩

end HftSim

namespace HftSim

/-! ### Structural lemmas for the C4 (no-crossed-book) development -/

theorem extremum?_mem (b : Bool) :
    ∀ (l : List Rat) (m : Rat), extremum? b l = some m → m ∈ l := by
  intro l
  induction l with
  | nil => intro m h; simp [extremum?] at h
  | cons p rest ih =>
      intro m h
      rw [extremum?] at h
      cases hr : extremum? b rest with
      | none =>
          rw [hr] at h
          simp at h
          simp [h]
      | some q =>
          rw [hr] at h
          simp at h
          cases b with
          | false =>
              simp at h
              rcases min_choice p q with hc | hc <;> rw [hc] at h
              · simp [h]
              · exact List.mem_cons_of_mem _ (h ▸ ih q hr)
          | true =>
              simp at h
              rcases max_choice p q with hc | hc <;> rw [hc] at h
              · simp [h]
              · exact List.mem_cons_of_mem _ (h ▸ ih q hr)

theorem alookup_isSome_of_mem {α β : Type} [DecidableEq α] :
    ∀ {l : List (α × β)} {k : α} {v : β}, (k, v) ∈ l → ∃ v', alookup l k = some v' := by
  intro l
  induction l with
  | nil => intro k v h; simp at h
  | cons hd tl ih =>
      intro k v h
      obtain ⟨k0, v0⟩ := hd
      by_cases hk : k0 = k
      · exact ⟨v0, by rw [alookup, if_pos hk]⟩
      · rw [alookup, if_neg hk]
        rcases List.mem_cons.mp h with h | h
        · cases h; exact absurd rfl hk
        · exact ih h

/-- Where an entry of `eraseIdFromLevels` comes from: it is an untouched
entry of the original list, or the erased-from bucket (same price, a
sublist of the original bucket, nonempty by the drop-if-empty guard). -/
theorem mem_eraseIdFromLevels_entry :
    ∀ (l : List (Rat × List Order)) (oid : Nat) (pb : Rat × List Order),
      pb ∈ eraseIdFromLevels l oid →
      ∃ b, (pb.1, b) ∈ l ∧ pb.2.Sublist b ∧ (pb.2 = b ∨ pb.2 ≠ []) := by
  intro l
  induction l with
  | nil => intro oid pb h; simp [eraseIdFromLevels] at h
  | cons hd tl ih =>
      intro oid pb h
      obtain ⟨p, b⟩ := hd
      by_cases hc : bucketContains b oid
      · rw [eraseIdFromLevels, if_pos hc] at h
        by_cases he : (b.eraseP (fun x => x.order_id = oid)).isEmpty
        · rw [if_pos he] at h
          exact ⟨pb.2, List.mem_cons_of_mem _ (by simpa using h),
            List.Sublist.refl _, Or.inl rfl⟩
        · rw [if_neg he] at h
          rcases List.mem_cons.mp h with h | h
          · subst h
            exact ⟨b, List.mem_cons_self _ _, List.eraseP_sublist b,
              Or.inr (by simpa using he)⟩
          · exact ⟨pb.2, List.mem_cons_of_mem _ (by simpa using h),
              List.Sublist.refl _, Or.inl rfl⟩
      · rw [eraseIdFromLevels, if_neg hc] at h
        rcases List.mem_cons.mp h with h | h
        · subst h
          exact ⟨b, List.mem_cons_self _ _, List.Sublist.refl _, Or.inl rfl⟩
        · rcases ih oid pb h with ⟨b', hb', hs, hne⟩
          exact ⟨b', List.mem_cons_of_mem _ hb', hs, hne⟩

theorem SideWF_remove {s : OrderBookSide} (hWF : SideWF s) (oid : Nat) :
    SideWF ((s.remove_order oid).1) := by
  unfold OrderBookSide.remove_order
  by_cases hc : s.containsId oid
  · rw [if_pos hc]
    intro pb hpb
    rcases mem_eraseIdFromLevels_entry s.price_levels oid pb hpb with ⟨b, hb, hs, hne⟩
    refine ⟨?_, ?_⟩
    · rcases hne with hne | hne
      · rw [hne]; exact (hWF _ hb).1
      · exact hne
    · intro o ho
      exact (hWF _ hb).2 o (hs.mem ho)
  · rw [if_neg hc]; exact hWF

theorem SideNoZero_remove {s : OrderBookSide} (hNZ : SideNoZero s) (oid : Nat) :
    SideNoZero ((s.remove_order oid).1) := by
  unfold OrderBookSide.remove_order
  by_cases hc : s.containsId oid
  · rw [if_pos hc]
    intro pb hpb
    rcases mem_eraseIdFromLevels_entry s.price_levels oid pb hpb with ⟨b, hb, _, _⟩
    exact hNZ (pb.1, b) hb
  · rw [if_neg hc]; exact hNZ

theorem is_bid_side_remove (s : OrderBookSide) (oid : Nat) :
    ((s.remove_order oid).1).is_bid_side = s.is_bid_side := by
  unfold OrderBookSide.remove_order
  split <;> rfl

theorem is_bid_side_add (s : OrderBookSide) (o : Order) :
    (s.add_order o).is_bid_side = s.is_bid_side := by
  unfold OrderBookSide.add_order
  cases alookup s.price_levels o.price <;> rfl

theorem SideWF_add {s : OrderBookSide} (hWF : SideWF s) (o : Order) :
    SideWF (s.add_order o) := by
  unfold OrderBookSide.add_order
  cases hlk : alookup s.price_levels o.price with
  | some bucket =>
      intro pb hpb
      rcases mem_aset hpb with h | h
      · subst h
        refine ⟨by simp, ?_⟩
        intro x hx
        rcases List.mem_append.mp hx with hx | hx
        · exact (hWF _ (alookup_mem hlk)).2 x hx
        · simp at hx; subst hx; rfl
      · exact hWF _ h
  | none =>
      intro pb hpb
      rcases List.mem_append.mp hpb with h | h
      · exact hWF _ h
      · simp at h
        subst h
        exact ⟨by simp, by intro x hx; simp at hx; subst hx; rfl⟩

theorem SideNoZero_add {s : OrderBookSide} (hNZ : SideNoZero s) {o : Order}
    (ho : o.price ≠ 0) : SideNoZero (s.add_order o) := by
  unfold OrderBookSide.add_order
  cases hlk : alookup s.price_levels o.price with
  | some bucket =>
      intro pb hpb
      rcases mem_aset hpb with h | h
      · subst h; exact ho
      · exact hNZ _ h
  | none =>
      intro pb hpb
      rcases List.mem_append.mp hpb with h | h
      · exact hNZ _ h
      · simp at h; subst h; exact ho

theorem mem_setHeadAt :
    ∀ (l : List (Rat × List Order)) (p : Rat) (o : Order) (pb : Rat × List Order),
      pb ∈ setHeadAt l p o → pb ∈ l ∨ ∃ b, (p, b) ∈ l ∧ pb = (p, headReplace b o) := by
  intro l
  induction l with
  | nil => intro p o pb h; simp [setHeadAt] at h
  | cons hd tl ih =>
      intro p o pb h
      obtain ⟨k, b⟩ := hd
      by_cases hk : k = p
      · subst hk
        rw [setHeadAt, if_pos rfl] at h
        rcases List.mem_cons.mp h with h | h
        · exact Or.inr ⟨b, List.mem_cons_self _ _, h⟩
        · exact Or.inl (List.mem_cons_of_mem _ h)
      · rw [setHeadAt, if_neg hk] at h
        rcases List.mem_cons.mp h with h | h
        · exact Or.inl (by simp [h])
        · rcases ih p o pb h with h' | ⟨b', hb', hpb⟩
          · exact Or.inl (List.mem_cons_of_mem _ h')
          · exact Or.inr ⟨b', List.mem_cons_of_mem _ hb', hpb⟩

theorem headReplace_ne_nil (b : List Order) (o : Order) : headReplace b o ≠ [] := by
  cases b <;> simp [headReplace]

theorem mem_headReplace {b : List Order} {o x : Order} (h : x ∈ headReplace b o) :
    x = o ∨ x ∈ b := by
  cases b with
  | nil => simp [headReplace] at h; exact Or.inl h
  | cons hd tl =>
      rw [headReplace] at h
      rcases List.mem_cons.mp h with h | h
      · exact Or.inl h
      · exact Or.inr (List.mem_cons_of_mem _ h)

theorem SideWF_writeBack {s : OrderBookSide} (hWF : SideWF s) {p : Rat} {o : Order}
    (hop : o.price = p) : SideWF (s.writeBack p o) := by
  unfold OrderBookSide.writeBack
  intro pb hpb
  rcases mem_setHeadAt s.price_levels p o pb hpb with h | ⟨b, hb, hpb'⟩
  · exact hWF _ h
  · subst hpb'
    refine ⟨headReplace_ne_nil b o, ?_⟩
    intro x hx
    rcases mem_headReplace hx with hx | hx
    · subst hx; exact hop
    · exact (hWF _ hb).2 x hx

theorem SideNoZero_writeBack {s : OrderBookSide} (hNZ : SideNoZero s) (p : Rat)
    (o : Order) : SideNoZero (s.writeBack p o) := by
  unfold OrderBookSide.writeBack
  intro pb hpb
  rcases mem_setHeadAt s.price_levels p o pb hpb with h | ⟨b, hb, hpb'⟩
  · exact hNZ _ h
  · subst hpb'
    exact hNZ (p, b) hb

theorem is_bid_side_writeBack (s : OrderBookSide) (p : Rat) (o : Order) :
    (s.writeBack p o).is_bid_side = s.is_bid_side := rfl

/-- Rewriting the head of a bucket of a well-formed side does not change
which prices have nonempty buckets. -/
theorem nonemptyPrices_writeBack {s : OrderBookSide} (hWF : SideWF s) (p : Rat)
    (o : Order) : (s.writeBack p o).nonemptyPrices = s.nonemptyPrices := by
  unfold OrderBookSide.writeBack OrderBookSide.nonemptyPrices
  simp only []
  have : ∀ (l : List (Rat × List Order)), (∀ pb ∈ l, pb.2 ≠ []) →
      (List.filter (fun pb => !pb.2.isEmpty) (setHeadAt l p o)).map Prod.fst =
      (List.filter (fun pb => !pb.2.isEmpty) l).map Prod.fst := by
    intro l
    induction l with
    | nil => intro _; simp [setHeadAt]
    | cons hd tl ih =>
        intro hl
        obtain ⟨k, b⟩ := hd
        have hb : b ≠ [] := hl (k, b) (List.mem_cons_self _ _)
        have h2 : (!b.isEmpty) = true := by simpa using hb
        have hihyp := ih (fun pb hpb => hl pb (List.mem_cons_of_mem _ hpb))
        by_cases hk : k = p
        · subst hk
          have h1 : (!(headReplace b o).isEmpty) = true := by
            simpa using headReplace_ne_nil b o
          rw [setHeadAt, if_pos rfl]
          simp [List.filter_cons, h1, h2]
        · rw [setHeadAt, if_neg hk]
          simp [List.filter_cons, h2, hihyp]
  exact this s.price_levels (fun pb hpb => (hWF pb hpb).1)

theorem nonemptyPrices_remove_subset {s : OrderBookSide} {oid : Nat} :
    ∀ p ∈ ((s.remove_order oid).1).nonemptyPrices, p ∈ s.nonemptyPrices := by
  intro p hp
  unfold OrderBookSide.remove_order at hp
  by_cases hc : s.containsId oid
  · rw [if_pos hc] at hp
    rcases of_mem_nonemptyPrices hp with ⟨b, hb, hbne⟩
    rcases mem_eraseIdFromLevels_entry s.price_levels oid (p, b) hb with ⟨b', hb', hs, _⟩
    refine mem_nonemptyPrices hb' ?_
    intro hnil
    subst hnil
    exact hbne (List.sublist_nil.mp hs)
  · rw [if_neg hc] at hp
    exact hp

theorem nonemptyPrices_add_subset {s : OrderBookSide} {o : Order} :
    ∀ p ∈ (s.add_order o).nonemptyPrices, p ∈ s.nonemptyPrices ∨ p = o.price := by
  intro p hp
  unfold OrderBookSide.add_order at hp
  cases hlk : alookup s.price_levels o.price with
  | some bucket =>
      rw [hlk] at hp
      rcases of_mem_nonemptyPrices hp with ⟨b, hb, hbne⟩
      rcases mem_aset hb with h | h
      · exact Or.inr (congrArg Prod.fst h)
      · exact Or.inl (mem_nonemptyPrices h hbne)
  | none =>
      rw [hlk] at hp
      rcases of_mem_nonemptyPrices hp with ⟨b, hb, hbne⟩
      rcases List.mem_append.mp hb with h | h
      · exact Or.inl (mem_nonemptyPrices h hbne)
      · simp at h
        exact Or.inr h.1

/-! ### Size and membership lemmas for loop-fuel adequacy -/

theorem bucketContains_exists {b : List Order} {oid : Nat}
    (h : bucketContains b oid = true) : ∃ o ∈ b, o.order_id = oid := by
  unfold bucketContains at h
  rcases List.any_eq_true.mp h with ⟨o, ho, hd⟩
  exact ⟨o, ho, by simpa using hd⟩

theorem sizeL_eraseId_lt :
    ∀ (l : List (Rat × List Order)) (oid : Nat),
      l.any (fun pb => bucketContains pb.2 oid) = true →
      ((eraseIdFromLevels l oid).map (fun pb => pb.2.length)).sum <
      (l.map (fun pb => pb.2.length)).sum := by
  intro l
  induction l with
  | nil => intro oid h; simp at h
  | cons hd tl ih =>
      intro oid h
      obtain ⟨p, b⟩ := hd
      by_cases hc : bucketContains b oid
      · rw [eraseIdFromLevels, if_pos hc]
        rcases bucketContains_exists hc with ⟨o, ho, hoid⟩
        have hlen : (b.eraseP (fun x => x.order_id = oid)).length = b.length - 1 :=
          List.length_eraseP_of_mem ho (by simpa using hoid)
        have hbpos : 0 < b.length := List.length_pos.mpr (by rintro rfl; simp at ho)
        by_cases he : (b.eraseP (fun x => x.order_id = oid)).isEmpty
        · rw [if_pos he]
          simp only [List.map_cons, List.sum_cons]
          omega
        · rw [if_neg he]
          simp only [List.map_cons, List.sum_cons, hlen]
          omega
      · rw [eraseIdFromLevels, if_neg hc]
        rcases List.any_eq_true.mp h with ⟨pb, hpb, hpbc⟩
        rcases List.mem_cons.mp hpb with hpb | hpb
        · subst hpb
          exact absurd (by simpa using hpbc) hc
        · have : tl.any (fun pb => bucketContains pb.2 oid) = true :=
            List.any_eq_true.mpr ⟨pb, hpb, hpbc⟩
          simp only [List.map_cons, List.sum_cons]
          have := ih oid this
          omega

theorem sideSize_remove_lt {s : OrderBookSide} {oid : Nat}
    (h : s.containsId oid = true) : ((s.remove_order oid).1).sideSize < s.sideSize := by
  unfold OrderBookSide.remove_order
  rw [if_pos h]
  unfold OrderBookSide.sideSize
  exact sizeL_eraseId_lt s.price_levels oid h

theorem get_best_order_containsId {s : OrderBookSide} {R : Order}
    (h : s.get_best_order = some R) : s.containsId R.order_id = true := by
  unfold OrderBookSide.get_best_order at h
  cases hbp : s.get_best_price with
  | none => rw [hbp] at h; simp at h
  | some p =>
      rw [hbp] at h
      simp only [] at h
      by_cases hz : p = 0
      · rw [if_pos hz] at h; simp at h
      · rw [if_neg hz] at h
        cases hlk : alookup s.price_levels p with
        | none => rw [hlk] at h; simp at h
        | some bucket =>
            rw [hlk] at h
            simp only [] at h
            unfold OrderBookSide.containsId
            refine List.any_eq_true.mpr ⟨(p, bucket), alookup_mem hlk, ?_⟩
            unfold bucketContains
            exact List.any_eq_true.mpr ⟨R, head?_mem h, by simp⟩

/-- A side with an empty list of levels has no best price. -/
theorem get_best_price_nil {s : OrderBookSide} (h : s.price_levels = []) :
    s.get_best_price = none := by
  unfold OrderBookSide.get_best_price OrderBookSide.nonemptyPrices
  rw [h]
  rfl

/-- On a well-formed side with no zero-priced level, `get_best_order`
returns `none` exactly when the side is empty. -/
theorem get_best_order_none_iff {s : OrderBookSide} (hWF : SideWF s)
    (hNZ : SideNoZero s) : s.get_best_order = none ↔ s.price_levels = [] := by
  constructor
  · intro h
    by_contra hne
    obtain ⟨pb, hl⟩ : ∃ pb l', s.price_levels = pb :: l' := by
      cases hpl : s.price_levels with
      | nil => exact absurd hpl hne
      | cons a l' => exact ⟨a, l', rfl⟩
    obtain ⟨l', hl⟩ := hl
    have hpbmem : pb ∈ s.price_levels := by rw [hl]; exact List.mem_cons_self _ _
    have hpne : pb.2 ≠ [] := (hWF _ hpbmem).1
    have hmem : pb.1 ∈ s.nonemptyPrices := mem_nonemptyPrices (by exact hpbmem) hpne
    have hnep : s.nonemptyPrices ≠ [] := by
      intro hnil; rw [hnil] at hmem; simp at hmem
    cases hbp : s.get_best_price with
    | none =>
        unfold OrderBookSide.get_best_price at hbp
        exact hnep ((extremum?_eq_none_iff _ _).mp hbp)
    | some p =>
        unfold OrderBookSide.get_best_order at h
        rw [hbp] at h
        simp only [] at h
        have hpmem : p ∈ s.nonemptyPrices := extremum?_mem _ _ _ hbp
        rcases of_mem_nonemptyPrices hpmem with ⟨b, hb, hbne⟩
        have hz : p ≠ 0 := hNZ _ hb
        rw [if_neg hz] at h
        rcases alookup_isSome_of_mem hb with ⟨b', hlk⟩
        rw [hlk] at h
        simp only [] at h
        have hb'mem : (p, b') ∈ s.price_levels := alookup_mem hlk
        have hb'ne : b' ≠ [] := (hWF _ hb'mem).1
        cases hb'' : b' with
        | nil => exact hb'ne hb''
        | cons x xs => rw [hb''] at h; simp at h
  · intro h
    unfold OrderBookSide.get_best_order
    rw [get_best_price_nil h]

end HftSim

namespace HftSim

/-! ### Best-price relations under removal and write-back -/

theorem remove_best_mono_ask {s : OrderBookSide} {oid : Nat} {m : Rat}
    (hflag : s.is_bid_side = false)
    (h : ((s.remove_order oid).1).get_best_price = some m) :
    ∃ m₀, s.get_best_price = some m₀ ∧ m₀ ≤ m := by
  have hflag' : ((s.remove_order oid).1).is_bid_side = false := by
    rw [is_bid_side_remove]; exact hflag
  unfold OrderBookSide.get_best_price at h ⊢
  rw [hflag'] at h
  rw [hflag]
  have hm : m ∈ ((s.remove_order oid).1).nonemptyPrices := extremum?_mem _ _ _ h
  have hm' : m ∈ s.nonemptyPrices := nonemptyPrices_remove_subset _ hm
  cases hbp : extremum? false s.nonemptyPrices with
  | none =>
      rw [(extremum?_eq_none_iff _ _).mp hbp] at hm'
      simp at hm'
  | some m₀ => exact ⟨m₀, rfl, extremum?_le _ _ hbp m hm'⟩

theorem remove_best_mono_bid {s : OrderBookSide} {oid : Nat} {m : Rat}
    (hflag : s.is_bid_side = true)
    (h : ((s.remove_order oid).1).get_best_price = some m) :
    ∃ m₀, s.get_best_price = some m₀ ∧ m ≤ m₀ := by
  have hflag' : ((s.remove_order oid).1).is_bid_side = true := by
    rw [is_bid_side_remove]; exact hflag
  unfold OrderBookSide.get_best_price at h ⊢
  rw [hflag'] at h
  rw [hflag]
  have hm : m ∈ ((s.remove_order oid).1).nonemptyPrices := extremum?_mem _ _ _ h
  have hm' : m ∈ s.nonemptyPrices := nonemptyPrices_remove_subset _ hm
  cases hbp : extremum? true s.nonemptyPrices with
  | none =>
      rw [(extremum?_eq_none_iff _ _).mp hbp] at hm'
      simp at hm'
  | some m₀ => exact ⟨m₀, rfl, extremum?_ge _ _ hbp m hm'⟩

theorem get_best_price_writeBack {s : OrderBookSide} (hWF : SideWF s)
    (p : Rat) (o : Order) : (s.writeBack p o).get_best_price = s.get_best_price := by
  unfold OrderBookSide.get_best_price
  rw [nonemptyPrices_writeBack hWF, is_bid_side_writeBack]

/-! ### Book-level projection lemmas -/

theorem book_remove_sell_asks (bk : OrderBook) (oid : Nat) :
    ((bk.remove_order oid OrderSide.SELL).1).asks = (bk.asks.remove_order oid).1 := rfl

theorem book_remove_sell_bids (bk : OrderBook) (oid : Nat) :
    ((bk.remove_order oid OrderSide.SELL).1).bids = bk.bids := rfl

theorem book_remove_sell_symbol (bk : OrderBook) (oid : Nat) :
    ((bk.remove_order oid OrderSide.SELL).1).symbol = bk.symbol := rfl

theorem book_remove_buy_bids (bk : OrderBook) (oid : Nat) :
    ((bk.remove_order oid OrderSide.BUY).1).bids = (bk.bids.remove_order oid).1 := rfl

theorem book_remove_buy_asks (bk : OrderBook) (oid : Nat) :
    ((bk.remove_order oid OrderSide.BUY).1).asks = bk.asks := rfl

theorem book_remove_buy_symbol (bk : OrderBook) (oid : Nat) :
    ((bk.remove_order oid OrderSide.BUY).1).symbol = bk.symbol := rfl

/-! ### The matching loop leaves the engine's book map untouched -/

theorem match_buy_fuel_orderbooks (n : Nat) :
    ∀ (e : TradingEngine) (I : Order) (bk : OrderBook),
      (TradingEngine.match_buy_order_fuel n e I bk).engine.orderbooks = e.orderbooks := by
  induction n with
  | zero => intro e I bk; rfl
  | succ n ih =>
      intro e I bk
      rw [TradingEngine.match_buy_order_fuel]
      by_cases hg : 0 < I.quantity ∧ I.is_active
      · rw [if_pos hg]
        cases hba : bk.get_best_ask with
        | none => rfl
        | some best_ask =>
            simp only []
            by_cases hp : best_ask.price > I.price
            · rw [if_pos hp]
            · rw [if_neg hp]
              by_cases hz : (e.execute_trade I best_ask (min I.quantity best_ask.quantity) best_ask.price bk).sell.quantity = 0
              · rw [if_pos hz]
                simp only []
                rw [ih]
                simp only []
                rw [execute_trade_orderbooks]
              · rw [if_neg hz]
                simp only []
                rw [execute_trade_orderbooks]
      · rw [if_neg hg]

theorem match_sell_fuel_orderbooks (n : Nat) :
    ∀ (e : TradingEngine) (I : Order) (bk : OrderBook),
      (TradingEngine.match_sell_order_fuel n e I bk).engine.orderbooks = e.orderbooks := by
  induction n with
  | zero => intro e I bk; rfl
  | succ n ih =>
      intro e I bk
      rw [TradingEngine.match_sell_order_fuel]
      by_cases hg : 0 < I.quantity ∧ I.is_active
      · rw [if_pos hg]
        cases hbb : bk.get_best_bid with
        | none => rfl
        | some best_bid =>
            simp only []
            by_cases hp : best_bid.price < I.price
            · rw [if_pos hp]
            · rw [if_neg hp]
              by_cases hz : (e.execute_trade best_bid I (min I.quantity best_bid.quantity) best_bid.price bk).buy.quantity = 0
              · rw [if_pos hz]
                simp only []
                rw [ih]
                simp only []
                rw [execute_trade_orderbooks]
              · rw [if_neg hz]
                simp only []
                rw [execute_trade_orderbooks]
      · rw [if_neg hg]

/-! ### Master postconditions of the matching loops -/

theorem match_buy_fuel_post (n : Nat) :
    ∀ (e : TradingEngine) (I : Order) (bk : OrderBook) (res : MatchResult),
      res = TradingEngine.match_buy_order_fuel n e I bk →
      bk.asks.sideSize < n →
      bk.asks.is_bid_side = false →
      SideWF bk.asks → SideNoZero bk.asks →
      res.book.bids = bk.bids ∧
      res.book.symbol = bk.symbol ∧
      res.book.asks.is_bid_side = false ∧
      SideWF res.book.asks ∧
      SideNoZero res.book.asks ∧
      res.order.price = I.price ∧
      res.order.side = I.side ∧
      res.order.symbol = I.symbol ∧
      res.order.order_id = I.order_id ∧
      (∀ m, res.book.asks.get_best_price = some m →
        ∃ m₀, bk.asks.get_best_price = some m₀ ∧ m₀ ≤ m) ∧
      (0 < res.order.quantity → res.order.is_active →
        res.book.asks.price_levels = [] ∨
        ∃ R, res.book.asks.get_best_order = some R ∧ I.price < R.price) := by
  induction n with
  | zero =>
      intro e I bk res _ hn
      exact absurd hn (Nat.not_lt_zero _)
  | succ n ih =>
      intro e I bk res hres hn hflag hWF hNZ
      rw [TradingEngine.match_buy_order_fuel] at hres
      by_cases hg : 0 < I.quantity ∧ I.is_active
      · rw [if_pos hg] at hres
        cases hba : bk.get_best_ask with
        | none =>
            rw [hba] at hres
            subst hres
            refine ⟨rfl, rfl, hflag, hWF, hNZ, rfl, rfl, rfl, rfl, ?_, ?_⟩
            · intro m hm; exact ⟨m, hm, le_refl m⟩
            · intro _ _
              exact Or.inl ((get_best_order_none_iff hWF hNZ).mp hba)
        | some best_ask =>
            rw [hba] at hres
            simp only [] at hres
            by_cases hp : best_ask.price > I.price
            · rw [if_pos hp] at hres
              subst hres
              refine ⟨rfl, rfl, hflag, hWF, hNZ, rfl, rfl, rfl, rfl, ?_, ?_⟩
              · intro m hm; exact ⟨m, hm, le_refl m⟩
              · intro _ _
                exact Or.inr ⟨best_ask, hba, hp⟩
            · rw [if_neg hp] at hres
              by_cases hz : (e.execute_trade I best_ask (min I.quantity best_ask.quantity) best_ask.price bk).sell.quantity = 0
              · rw [if_pos hz] at hres
                have hcid : bk.asks.containsId best_ask.order_id = true :=
                  get_best_order_containsId hba
                have hbk2 :
                    (((e.execute_trade I best_ask (min I.quantity best_ask.quantity) best_ask.price bk).book.remove_order best_ask.order_id OrderSide.SELL).1).asks
                      = (bk.asks.remove_order best_ask.order_id).1 := by
                  rw [book_remove_sell_asks, execute_trade_book_asks]
                have hn2 :
                    (((e.execute_trade I best_ask (min I.quantity best_ask.quantity) best_ask.price bk).book.remove_order best_ask.order_id OrderSide.SELL).1).asks.sideSize < n := by
                  rw [hbk2]
                  have := sideSize_remove_lt hcid
                  omega
                have hflag2 :
                    (((e.execute_trade I best_ask (min I.quantity best_ask.quantity) best_ask.price bk).book.remove_order best_ask.order_id OrderSide.SELL).1).asks.is_bid_side = false := by
                  rw [hbk2, is_bid_side_remove]; exact hflag
                have hWF2 := hbk2 ▸ SideWF_remove hWF best_ask.order_id
                have hNZ2 := hbk2 ▸ SideNoZero_remove hNZ best_ask.order_id
                obtain ⟨c1, c2, c3, c4, c5, c6, c7, c8, c9, c10, c11⟩ :=
                  ih _ _ _ _ rfl hn2 hflag2 hWF2 hNZ2
                subst hres
                refine ⟨?_, ?_, c3, c4, c5, ?_, ?_, ?_, ?_, ?_, ?_⟩
                · rw [c1, book_remove_sell_bids, execute_trade_book_bids]
                · rw [c2, book_remove_sell_symbol, execute_trade_book_symbol]
                · rw [c6, execute_trade_buy, fillApplied_price]
                · rw [c7, execute_trade_buy, fillApplied_side]
                · rw [c8, execute_trade_buy, fillApplied_symbol]
                · rw [c9, execute_trade_buy, fillApplied_order_id]
                · intro m hm
                  rcases c10 m hm with ⟨m₁, hm₁, hle₁⟩
                  rw [hbk2] at hm₁
                  rcases remove_best_mono_ask hflag hm₁ with ⟨m₀, hm₀, hle₀⟩
                  exact ⟨m₀, hm₀, le_trans hle₀ hle₁⟩
                · intro hq hact
                  rcases c11 hq hact with h | ⟨R, hR, hRp⟩
                  · exact Or.inl h
                  · refine Or.inr ⟨R, hR, ?_⟩
                    rw [execute_trade_buy, fillApplied_price] at hRp
                    exact hRp
              · rw [if_neg hz] at hres
                subst hres
                have hsp :
                    (e.execute_trade I best_ask (min I.quantity best_ask.quantity) best_ask.price bk).sell.price = best_ask.price := by
                  rw [execute_trade_sell, fillApplied_price]
                refine ⟨?_, ?_, ?_, ?_, ?_, ?_, ?_, ?_, ?_, ?_, ?_⟩
                · rw [execute_trade_book_bids]
                · rw [execute_trade_book_symbol]
                · rw [is_bid_side_writeBack, execute_trade_book_asks]
                  exact hflag
                · have := SideWF_writeBack (execute_trade_book_asks e I best_ask (min I.quantity best_ask.quantity) best_ask.price bk ▸ hWF) hsp
                  exact this
                · have := SideNoZero_writeBack (execute_trade_book_asks e I best_ask (min I.quantity best_ask.quantity) best_ask.price bk ▸ hNZ) best_ask.price (e.execute_trade I best_ask (min I.quantity best_ask.quantity) best_ask.price bk).sell
                  exact this
                · rw [execute_trade_buy, fillApplied_price]
                · rw [execute_trade_buy, fillApplied_side]
                · rw [execute_trade_buy, fillApplied_symbol]
                · rw [execute_trade_buy, fillApplied_order_id]
                · intro m hm
                  have hWF' : SideWF (e.execute_trade I best_ask (min I.quantity best_ask.quantity) best_ask.price bk).book.asks := by
                    rw [execute_trade_book_asks]; exact hWF
                  rw [get_best_price_writeBack hWF'] at hm
                  rw [execute_trade_book_asks] at hm
                  exact ⟨m, hm, le_refl m⟩
                · intro hq _
                  exfalso
                  have h1 : min I.quantity best_ask.quantity ≤ best_ask.quantity :=
                    min_le_right _ _
                  have h2 : min I.quantity best_ask.quantity ≤ I.quantity :=
                    min_le_left _ _
                  have hsq :
                      (e.execute_trade I best_ask (min I.quantity best_ask.quantity) best_ask.price bk).sell.quantity
                        = best_ask.quantity - min I.quantity best_ask.quantity := by
                    rw [execute_trade_sell, fillApplied_quantity _ _ _ h1]
                  have hbq :
                      (e.execute_trade I best_ask (min I.quantity best_ask.quantity) best_ask.price bk).buy.quantity
                        = I.quantity - min I.quantity best_ask.quantity := by
                    rw [execute_trade_buy, fillApplied_quantity _ _ _ h2]
                  rw [hsq] at hz
                  rw [hbq] at hq
                  rcases min_choice I.quantity best_ask.quantity with hc | hc <;> rw [hc] at hz hq <;> omega
      · rw [if_neg hg] at hres
        subst hres
        refine ⟨rfl, rfl, hflag, hWF, hNZ, rfl, rfl, rfl, rfl, ?_, ?_⟩
        · intro m hm; exact ⟨m, hm, le_refl m⟩
        · intro hq hact
          exact absurd ⟨hq, hact⟩ hg

end HftSim

namespace HftSim

theorem match_sell_fuel_post (n : Nat) :
    ∀ (e : TradingEngine) (I : Order) (bk : OrderBook) (res : MatchResult),
      res = TradingEngine.match_sell_order_fuel n e I bk →
      bk.bids.sideSize < n →
      bk.bids.is_bid_side = true →
      SideWF bk.bids → SideNoZero bk.bids →
      res.book.asks = bk.asks ∧
      res.book.symbol = bk.symbol ∧
      res.book.bids.is_bid_side = true ∧
      SideWF res.book.bids ∧
      SideNoZero res.book.bids ∧
      res.order.price = I.price ∧
      res.order.side = I.side ∧
      res.order.symbol = I.symbol ∧
      res.order.order_id = I.order_id ∧
      (∀ m, res.book.bids.get_best_price = some m →
        ∃ m₀, bk.bids.get_best_price = some m₀ ∧ m ≤ m₀) ∧
      (0 < res.order.quantity → res.order.is_active →
        res.book.bids.price_levels = [] ∨
        ∃ R, res.book.bids.get_best_order = some R ∧ R.price < I.price) := by
  induction n with
  | zero =>
      intro e I bk res _ hn
      exact absurd hn (Nat.not_lt_zero _)
  | succ n ih =>
      intro e I bk res hres hn hflag hWF hNZ
      rw [TradingEngine.match_sell_order_fuel] at hres
      by_cases hg : 0 < I.quantity ∧ I.is_active
      · rw [if_pos hg] at hres
        cases hbb : bk.get_best_bid with
        | none =>
            rw [hbb] at hres
            subst hres
            refine ⟨rfl, rfl, hflag, hWF, hNZ, rfl, rfl, rfl, rfl, ?_, ?_⟩
            · intro m hm; exact ⟨m, hm, le_refl m⟩
            · intro _ _
              exact Or.inl ((get_best_order_none_iff hWF hNZ).mp hbb)
        | some best_bid =>
            rw [hbb] at hres
            simp only [] at hres
            by_cases hp : best_bid.price < I.price
            · rw [if_pos hp] at hres
              subst hres
              refine ⟨rfl, rfl, hflag, hWF, hNZ, rfl, rfl, rfl, rfl, ?_, ?_⟩
              · intro m hm; exact ⟨m, hm, le_refl m⟩
              · intro _ _
                exact Or.inr ⟨best_bid, hbb, hp⟩
            · rw [if_neg hp] at hres
              by_cases hz : (e.execute_trade best_bid I (min I.quantity best_bid.quantity) best_bid.price bk).buy.quantity = 0
              · rw [if_pos hz] at hres
                have hcid : bk.bids.containsId best_bid.order_id = true :=
                  get_best_order_containsId hbb
                have hbk2 :
                    (((e.execute_trade best_bid I (min I.quantity best_bid.quantity) best_bid.price bk).book.remove_order best_bid.order_id OrderSide.BUY).1).bids
                      = (bk.bids.remove_order best_bid.order_id).1 := by
                  rw [book_remove_buy_bids, execute_trade_book_bids]
                have hn2 :
                    (((e.execute_trade best_bid I (min I.quantity best_bid.quantity) best_bid.price bk).book.remove_order best_bid.order_id OrderSide.BUY).1).bids.sideSize < n := by
                  rw [hbk2]
                  have := sideSize_remove_lt hcid
                  omega
                have hflag2 :
                    (((e.execute_trade best_bid I (min I.quantity best_bid.quantity) best_bid.price bk).book.remove_order best_bid.order_id OrderSide.BUY).1).bids.is_bid_side = true := by
                  rw [hbk2, is_bid_side_remove]; exact hflag
                have hWF2 := hbk2 ▸ SideWF_remove hWF best_bid.order_id
                have hNZ2 := hbk2 ▸ SideNoZero_remove hNZ best_bid.order_id
                obtain ⟨c1, c2, c3, c4, c5, c6, c7, c8, c9, c10, c11⟩ :=
                  ih _ _ _ _ rfl hn2 hflag2 hWF2 hNZ2
                subst hres
                refine ⟨?_, ?_, c3, c4, c5, ?_, ?_, ?_, ?_, ?_, ?_⟩
                · rw [c1, book_remove_buy_asks, execute_trade_book_asks]
                · rw [c2, book_remove_buy_symbol, execute_trade_book_symbol]
                · rw [c6, execute_trade_sell, fillApplied_price]
                · rw [c7, execute_trade_sell, fillApplied_side]
                · rw [c8, execute_trade_sell, fillApplied_symbol]
                · rw [c9, execute_trade_sell, fillApplied_order_id]
                · intro m hm
                  rcases c10 m hm with ⟨m₁, hm₁, hle₁⟩
                  rw [hbk2] at hm₁
                  rcases remove_best_mono_bid hflag hm₁ with ⟨m₀, hm₀, hle₀⟩
                  exact ⟨m₀, hm₀, le_trans hle₁ hle₀⟩
                · intro hq hact
                  rcases c11 hq hact with h | ⟨R, hR, hRp⟩
                  · exact Or.inl h
                  · refine Or.inr ⟨R, hR, ?_⟩
                    rw [execute_trade_sell, fillApplied_price] at hRp
                    exact hRp
              · rw [if_neg hz] at hres
                subst hres
                have hbp :
                    (e.execute_trade best_bid I (min I.quantity best_bid.quantity) best_bid.price bk).buy.price = best_bid.price := by
                  rw [execute_trade_buy, fillApplied_price]
                refine ⟨?_, ?_, ?_, ?_, ?_, ?_, ?_, ?_, ?_, ?_, ?_⟩
                · rw [execute_trade_book_asks]
                · rw [execute_trade_book_symbol]
                · rw [is_bid_side_writeBack, execute_trade_book_bids]
                  exact hflag
                · have := SideWF_writeBack (execute_trade_book_bids e best_bid I (min I.quantity best_bid.quantity) best_bid.price bk ▸ hWF) hbp
                  exact this
                · have := SideNoZero_writeBack (execute_trade_book_bids e best_bid I (min I.quantity best_bid.quantity) best_bid.price bk ▸ hNZ) best_bid.price (e.execute_trade best_bid I (min I.quantity best_bid.quantity) best_bid.price bk).buy
                  exact this
                · rw [execute_trade_sell, fillApplied_price]
                · rw [execute_trade_sell, fillApplied_side]
                · rw [execute_trade_sell, fillApplied_symbol]
                · rw [execute_trade_sell, fillApplied_order_id]
                · intro m hm
                  have hWF' : SideWF (e.execute_trade best_bid I (min I.quantity best_bid.quantity) best_bid.price bk).book.bids := by
                    rw [execute_trade_book_bids]; exact hWF
                  rw [get_best_price_writeBack hWF'] at hm
                  rw [execute_trade_book_bids] at hm
                  exact ⟨m, hm, le_refl m⟩
                · intro hq _
                  exfalso
                  have h1 : min I.quantity best_bid.quantity ≤ best_bid.quantity :=
                    min_le_right _ _
                  have h2 : min I.quantity best_bid.quantity ≤ I.quantity :=
                    min_le_left _ _
                  have hbq :
                      (e.execute_trade best_bid I (min I.quantity best_bid.quantity) best_bid.price bk).buy.quantity
                        = best_bid.quantity - min I.quantity best_bid.quantity := by
                    rw [execute_trade_buy, fillApplied_quantity _ _ _ h1]
                  have hsq :
                      (e.execute_trade best_bid I (min I.quantity best_bid.quantity) best_bid.price bk).sell.quantity
                        = I.quantity - min I.quantity best_bid.quantity := by
                    rw [execute_trade_sell, fillApplied_quantity _ _ _ h2]
                  rw [hbq] at hz
                  rw [hsq] at hq
                  rcases min_choice I.quantity best_bid.quantity with hc | hc <;> rw [hc] at hz hq <;> omega
      · rw [if_neg hg] at hres
        subst hres
        refine ⟨rfl, rfl, hflag, hWF, hNZ, rfl, rfl, rfl, rfl, ?_, ?_⟩
        · intro m hm; exact ⟨m, hm, le_refl m⟩
        · intro hq hact
          exact absurd ⟨hq, hact⟩ hg

end HftSim

namespace HftSim

theorem is_crossed_false_iff (bk : OrderBook) :
    bk.is_crossed = false ↔
      ∀ bb ba, bk.get_best_bid_price = some bb → bk.get_best_ask_price = some ba →
        bb < ba := by
  unfold OrderBook.is_crossed
  cases hb : bk.get_best_bid_price with
  | none => simp
  | some bb =>
      cases ha : bk.get_best_ask_price with
      | none => simp
      | some ba =>
          simp only [decide_eq_false_iff_not, not_le]
          constructor
          · intro h bb' ba' hbb' hba'
            injection hbb' with h1
            injection hba' with h2
            subst h1
            subst h2
            exact h
          · intro h
            exact h bb ba rfl rfl

theorem add_best_bound_bid {s : OrderBookSide} (hflag : s.is_bid_side = true)
    {o : Order} {m : Rat} (h : (s.add_order o).get_best_price = some m) :
    m = o.price ∨ ∃ m₀, s.get_best_price = some m₀ ∧ m ≤ m₀ := by
  have hflag' : (s.add_order o).is_bid_side = true := by
    rw [is_bid_side_add]; exact hflag
  unfold OrderBookSide.get_best_price at h
  rw [hflag'] at h
  have hm : m ∈ (s.add_order o).nonemptyPrices := extremum?_mem _ _ _ h
  rcases nonemptyPrices_add_subset _ hm with hm' | hm'
  · right
    unfold OrderBookSide.get_best_price
    rw [hflag]
    cases hbp : extremum? true s.nonemptyPrices with
    | none =>
        rw [(extremum?_eq_none_iff _ _).mp hbp] at hm'
        simp at hm'
    | some m₀ => exact ⟨m₀, rfl, extremum?_ge _ _ hbp m hm'⟩
  · exact Or.inl hm'

theorem add_best_bound_ask {s : OrderBookSide} (hflag : s.is_bid_side = false)
    {o : Order} {m : Rat} (h : (s.add_order o).get_best_price = some m) :
    m = o.price ∨ ∃ m₀, s.get_best_price = some m₀ ∧ m₀ ≤ m := by
  have hflag' : (s.add_order o).is_bid_side = false := by
    rw [is_bid_side_add]; exact hflag
  unfold OrderBookSide.get_best_price at h
  rw [hflag'] at h
  have hm : m ∈ (s.add_order o).nonemptyPrices := extremum?_mem _ _ _ h
  rcases nonemptyPrices_add_subset _ hm with hm' | hm'
  · right
    unfold OrderBookSide.get_best_price
    rw [hflag]
    cases hbp : extremum? false s.nonemptyPrices with
    | none =>
        rw [(extremum?_eq_none_iff _ _).mp hbp] at hm'
        simp at hm'
    | some m₀ => exact ⟨m₀, rfl, extremum?_le _ _ hbp m hm'⟩
  · exact Or.inl hm'

theorem match_order_orderbooks (e : TradingEngine) (o : Order) (bk : OrderBook) :
    (e.match_order o bk).engine.orderbooks = e.orderbooks := by
  unfold TradingEngine.match_order
  split
  · exact match_buy_fuel_orderbooks _ e o bk
  · exact match_sell_fuel_orderbooks _ e o bk

/-- After matching, the (possibly shrunk) book is still well-formed and
uncrossed. -/
theorem match_order_book_inv (e : TradingEngine) (o : Order) (bk : OrderBook)
    (hB : BookInv bk) :
    BookInv (e.match_order o bk).book ∧ (e.match_order o bk).book.symbol = bk.symbol := by
  obtain ⟨hbf, haf, hbWF, haWF, hbNZ, haNZ, hcr⟩ := hB
  unfold TradingEngine.match_order
  split
  · unfold TradingEngine.match_buy_order
    obtain ⟨c1, c2, c3, c4, c5, _, _, _, _, c10, _⟩ :=
      match_buy_fuel_post (bk.asks.sideSize + 1) e o bk _ rfl (Nat.lt_succ_self _)
        haf haWF haNZ
    refine ⟨⟨by rw [c1]; exact hbf, c3, by rw [c1]; exact hbWF, c4,
      by rw [c1]; exact hbNZ, c5, ?_⟩, c2⟩
    rw [is_crossed_false_iff]
    intro bb ba hbb hba
    have hbb' : bk.bids.get_best_price = some bb := by
      have : (TradingEngine.match_buy_order_fuel (bk.asks.sideSize + 1) e o bk).book.bids.get_best_price = some bb := hbb
      rw [c1] at this
      exact this
    rcases c10 ba hba with ⟨a₀, ha₀, hle⟩
    have := (is_crossed_false_iff bk).mp hcr bb a₀ hbb' ha₀
    exact lt_of_lt_of_le this hle
  · unfold TradingEngine.match_sell_order
    obtain ⟨c1, c2, c3, c4, c5, _, _, _, _, c10, _⟩ :=
      match_sell_fuel_post (bk.bids.sideSize + 1) e o bk _ rfl (Nat.lt_succ_self _)
        hbf hbWF hbNZ
    refine ⟨⟨c3, by rw [c1]; exact haf, c4, by rw [c1]; exact haWF, c5,
      by rw [c1]; exact haNZ, ?_⟩, c2⟩
    rw [is_crossed_false_iff]
    intro bb ba hbb hba
    have hba' : bk.asks.get_best_price = some ba := by
      have : (TradingEngine.match_sell_order_fuel (bk.bids.sideSize + 1) e o bk).book.asks.get_best_price = some ba := hba
      rw [c1] at this
      exact this
    rcases c10 bb hbb with ⟨m₀, hm₀, hle⟩
    have := (is_crossed_false_iff bk).mp hcr m₀ ba hm₀ hba'
    exact lt_of_le_of_lt hle this

/-- When the incoming order still has quantity after matching and rests on
its own side, the book stays well-formed and uncrossed: the matching loop
stopped because the opposite side no longer crosses the incoming price. -/
theorem match_order_rest_inv (e : TradingEngine) (o : Order) (bk : OrderBook)
    (hB : BookInv bk) (hsym : bk.symbol = o.symbol) (hp : o.price ≠ 0)
    (hact : (e.match_order o bk).order.is_active)
    (hq : 0 < (e.match_order o bk).order.quantity) :
    BookInv (match (e.match_order o bk).book.add_order (e.match_order o bk).order with
      | Except.ok b => b
      | Except.error _ => (e.match_order o bk).book) ∧
    (match (e.match_order o bk).book.add_order (e.match_order o bk).order with
      | Except.ok b => b
      | Except.error _ => (e.match_order o bk).book).symbol = o.symbol := by
  obtain ⟨hbf, haf, hbWF, haWF, hbNZ, haNZ, hcr⟩ := hB
  revert hact hq
  unfold TradingEngine.match_order
  split
  · rename_i hside
    intro hact hq
    unfold TradingEngine.match_buy_order at hact hq ⊢
    obtain ⟨c1, c2, c3, c4, c5, c6, c7, c8, _, c10, c11⟩ :=
      match_buy_fuel_post (bk.asks.sideSize + 1) e o bk _ rfl (Nat.lt_succ_self _)
        haf haWF haNZ
    have hsymeq :
        ¬ ((TradingEngine.match_buy_order_fuel (bk.asks.sideSize + 1) e o bk).order.symbol
          ≠ (TradingEngine.match_buy_order_fuel (bk.asks.sideSize + 1) e o bk).book.symbol) := by
      rw [c8, c2, hsym]
      simp
    rw [OrderBook.add_order, if_neg hsymeq, if_pos (by rw [c7]; exact hside)]
    simp only []
    constructor
    · refine ⟨?_, c3, ?_, c4, ?_, c5, ?_⟩
      · rw [is_bid_side_add, c1]; exact hbf
      · exact SideWF_add (c1 ▸ hbWF) _
      · exact SideNoZero_add (c1 ▸ hbNZ) (by rw [c6]; exact hp)
      · rw [is_crossed_false_iff]
        intro bb ba hbb hba
        have hba' :
            (TradingEngine.match_buy_order_fuel (bk.asks.sideSize + 1) e o bk).book.asks.get_best_price = some ba := hba
        rcases c11 hq hact with hnil | ⟨R, hR, hRp⟩
        · rw [get_best_price_nil hnil] at hba'
          exact absurd hba' (by simp)
        · obtain ⟨hRbp, _⟩ := get_best_order_facts c4 hR
          rw [hRbp] at hba'
          have hbaR : ba = R.price := by
            injection hba' with h
            exact h.symm
          have hbb' :
              ((TradingEngine.match_buy_order_fuel (bk.asks.sideSize + 1) e o bk).book.bids.add_order
                (TradingEngine.match_buy_order_fuel (bk.asks.sideSize + 1) e o bk).order).get_best_price = some bb := hbb
          have hflagb :
              (TradingEngine.match_buy_order_fuel (bk.asks.sideSize + 1) e o bk).book.bids.is_bid_side = true := by
            rw [c1]; exact hbf
          rcases add_best_bound_bid hflagb hbb' with hbbo | ⟨m₀, hm₀, hle⟩
          · rw [hbaR, hbbo, c6]
            exact hRp
          · rcases c10 R.price (hRbp) with ⟨a₀, ha₀, hlea⟩
            have hm₀' : bk.bids.get_best_price = some m₀ := by
              rw [c1] at hm₀
              exact hm₀
            have hlt := (is_crossed_false_iff bk).mp hcr m₀ a₀ hm₀' ha₀
            rw [hbaR]
            calc bb ≤ m₀ := hle
              _ < a₀ := hlt
              _ ≤ R.price := hlea
    · rw [c2, hsym]
  · rename_i hside
    intro hact hq
    unfold TradingEngine.match_sell_order at hact hq ⊢
    have hside' : o.side = OrderSide.SELL := by
      cases hs : o.side
      · exact absurd hs hside
      · rfl
    obtain ⟨c1, c2, c3, c4, c5, c6, c7, c8, _, c10, c11⟩ :=
      match_sell_fuel_post (bk.bids.sideSize + 1) e o bk _ rfl (Nat.lt_succ_self _)
        hbf hbWF hbNZ
    have hsymeq :
        ¬ ((TradingEngine.match_sell_order_fuel (bk.bids.sideSize + 1) e o bk).order.symbol
          ≠ (TradingEngine.match_sell_order_fuel (bk.bids.sideSize + 1) e o bk).book.symbol) := by
      rw [c8, c2, hsym]
      simp
    have hsideneg :
        ¬ ((TradingEngine.match_sell_order_fuel (bk.bids.sideSize + 1) e o bk).order.side = OrderSide.BUY) := by
      rw [c7, hside']
      simp
    rw [OrderBook.add_order, if_neg hsymeq, if_neg hsideneg]
    simp only []
    constructor
    · refine ⟨c3, ?_, c4, ?_, c5, ?_, ?_⟩
      · rw [is_bid_side_add, c1]; exact haf
      · exact SideWF_add (c1 ▸ haWF) _
      · exact SideNoZero_add (c1 ▸ haNZ) (by rw [c6]; exact hp)
      · rw [is_crossed_false_iff]
        intro bb ba hbb hba
        have hbb' :
            (TradingEngine.match_sell_order_fuel (bk.bids.sideSize + 1) e o bk).book.bids.get_best_price = some bb := hbb
        rcases c11 hq hact with hnil | ⟨R, hR, hRp⟩
        · rw [get_best_price_nil hnil] at hbb'
          exact absurd hbb' (by simp)
        · obtain ⟨hRbp, _⟩ := get_best_order_facts c4 hR
          rw [hRbp] at hbb'
          have hbbR : bb = R.price := by
            injection hbb' with h
            exact h.symm
          have hba' :
              ((TradingEngine.match_sell_order_fuel (bk.bids.sideSize + 1) e o bk).book.asks.add_order
                (TradingEngine.match_sell_order_fuel (bk.bids.sideSize + 1) e o bk).order).get_best_price = some ba := hba
          have hflaga :
              (TradingEngine.match_sell_order_fuel (bk.bids.sideSize + 1) e o bk).book.asks.is_bid_side = false := by
            rw [c1]; exact haf
          rcases add_best_bound_ask hflaga hba' with hbao | ⟨a₀, ha₀, hle⟩
          · rw [hbbR, hbao, c6]
            exact hRp
          · rcases c10 R.price (hRbp) with ⟨m₀, hm₀, hleb⟩
            have ha₀' : bk.asks.get_best_price = some a₀ := by
              rw [c1] at ha₀
              exact ha₀
            have hlt := (is_crossed_false_iff bk).mp hcr m₀ a₀ hm₀ ha₀'
            rw [hbbR]
            calc R.price ≤ m₀ := hleb
              _ < a₀ := hlt
              _ ≤ ba := hle
    · rw [c2, hsym]

end HftSim

namespace HftSim

theorem BookInv_new (sym : String) : BookInv (OrderBook.new sym) := by
  refine ⟨rfl, rfl, ?_, ?_, ?_, ?_, rfl⟩ <;>
    · intro pb hpb
      simp [OrderBook.new, OrderBookSide.new] at hpb

theorem process_order_inv (e : TradingEngine) (o : Order)
    (hE : EngineInv e) (hp : o.price ≠ 0) : EngineInv (e.process_order o) := by
  simp only [TradingEngine.process_order]
  cases hlk : alookup e.orderbooks o.symbol with
  | some bk =>
      have hB : BookInv bk := (hE _ (alookup_mem hlk)).2
      have hsym : bk.symbol = o.symbol := (hE _ (alookup_mem hlk)).1
      simp only [TradingEngine.get_orderbook, hlk]
      by_cases hcond :
          (({ e with active_orders := aset e.active_orders o.order_id o } : TradingEngine).match_order o bk).order.is_active ∧
          0 < (({ e with active_orders := aset e.active_orders o.order_id o } : TradingEngine).match_order o bk).order.quantity
      · rw [if_pos hcond]
        intro pb hpb
        rcases mem_aset hpb with hpb | hpb
        · obtain ⟨hBI, hS⟩ := match_order_rest_inv
            { e with active_orders := aset e.active_orders o.order_id o } o bk hB hsym hp
            hcond.1 hcond.2
          subst hpb
          exact ⟨hS, hBI⟩
        · have hpb' : pb ∈ e.orderbooks := by
            have h' := hpb
            rw [match_order_orderbooks] at h'
            exact h'
          exact hE pb hpb'
      · rw [if_neg hcond]
        intro pb hpb
        rcases mem_aset hpb with hpb | hpb
        · obtain ⟨hBI, hS⟩ := match_order_book_inv
            { e with active_orders := aset e.active_orders o.order_id o } o bk hB
          subst hpb
          exact ⟨by rw [hS, hsym], hBI⟩
        · have hpb' : pb ∈ e.orderbooks := by
            have h' := hpb
            rw [match_order_orderbooks] at h'
            exact h'
          exact hE pb hpb'
  | none =>
      have hB : BookInv (OrderBook.new o.symbol) := BookInv_new o.symbol
      have hsym : (OrderBook.new o.symbol).symbol = o.symbol := rfl
      simp only [TradingEngine.get_orderbook, hlk]
      by_cases hcond :
          (({ e with active_orders := aset e.active_orders o.order_id o, orderbooks := e.orderbooks ++ [(o.symbol, OrderBook.new o.symbol)] } : TradingEngine).match_order o (OrderBook.new o.symbol)).order.is_active ∧
          0 < (({ e with active_orders := aset e.active_orders o.order_id o, orderbooks := e.orderbooks ++ [(o.symbol, OrderBook.new o.symbol)] } : TradingEngine).match_order o (OrderBook.new o.symbol)).order.quantity
      · rw [if_pos hcond]
        intro pb hpb
        rcases mem_aset hpb with hpb | hpb
        · obtain ⟨hBI, hS⟩ := match_order_rest_inv
            { e with active_orders := aset e.active_orders o.order_id o, orderbooks := e.orderbooks ++ [(o.symbol, OrderBook.new o.symbol)] }
            o (OrderBook.new o.symbol) hB hsym hp hcond.1 hcond.2
          subst hpb
          exact ⟨hS, hBI⟩
        · have hpb' : pb ∈ e.orderbooks ++ [(o.symbol, OrderBook.new o.symbol)] := by
            have h' := hpb
            rw [match_order_orderbooks] at h'
            exact h'
          rcases List.mem_append.mp hpb' with hpb2 | hpb2
          · exact hE pb hpb2
          · simp at hpb2
            subst hpb2
            exact ⟨rfl, BookInv_new o.symbol⟩
      · rw [if_neg hcond]
        intro pb hpb
        rcases mem_aset hpb with hpb | hpb
        · obtain ⟨hBI, hS⟩ := match_order_book_inv
            { e with active_orders := aset e.active_orders o.order_id o, orderbooks := e.orderbooks ++ [(o.symbol, OrderBook.new o.symbol)] }
            o (OrderBook.new o.symbol) hB
          subst hpb
          exact ⟨by rw [hS]; rfl, hBI⟩
        · have hpb' : pb ∈ e.orderbooks ++ [(o.symbol, OrderBook.new o.symbol)] := by
            have h' := hpb
            rw [match_order_orderbooks] at h'
            exact h'
          rcases List.mem_append.mp hpb' with hpb2 | hpb2
          · exact hE pb hpb2
          · simp at hpb2
            subst hpb2
            exact ⟨rfl, BookInv_new o.symbol⟩

theorem process_orders_inv (l : List Order) :
    ∀ (e : TradingEngine), EngineInv e → (∀ o ∈ l, o.price ≠ 0) →
      EngineInv (e.process_orders l) := by
  induction l with
  | nil => intro e hE _; exact hE
  | cons o rest ih =>
      intro e hE hl
      have h1 : EngineInv (e.process_order o) :=
        process_order_inv e o hE (hl o (List.mem_cons_self _ _))
      exact ih _ h1 (fun x hx => hl x (List.mem_cons_of_mem _ hx))

/-- Counterexample to C4 as stated: a zero-priced resting SELL defeats
`get_best_order`'s Python-falsy `if best_price` check, so a later BUY at a
higher price cannot match it and rests — leaving the book crossed
(best bid 1 ≥ best ask 0) at quiescence with both sides nonempty. -/
theorem zero_price_order_crosses_book_cex :
    (alookup (TradingEngine.new.process_orders
        [Order.new 1 "A" "AAPL" OrderSide.SELL 5 0,
         Order.new 2 "B" "AAPL" OrderSide.BUY 5 1]).orderbooks "AAPL").map
        OrderBook.is_crossed = some true ∧
    (alookup (TradingEngine.new.process_orders
        [Order.new 1 "A" "AAPL" OrderSide.SELL 5 0,
         Order.new 2 "B" "AAPL" OrderSide.BUY 5 1]).orderbooks "AAPL").map
        (fun bk => bk.bids.price_levels.isEmpty) = some false ∧
    (alookup (TradingEngine.new.process_orders
        [Order.new 1 "A" "AAPL" OrderSide.SELL 5 0,
         Order.new 2 "B" "AAPL" OrderSide.BUY 5 1]).orderbooks "AAPL").map
        (fun bk => bk.asks.price_levels.isEmpty) = some false := by
  refine ⟨?_, ?_, ?_⟩ <;> rfl

/-- C4 (corrected): provided every submitted order has a nonzero price,
after the matching worker drains any queue of orders starting from a
fresh engine, every symbol's book is un-crossed:
`is_crossed` is false, i.e. `best_bid < best_ask` or a side quotes no
price.  (A zero-priced order breaks the claim as stated, because
`get_best_order` treats a best price of `0.0` as falsy and skips the
level while `get_best_price`/`is_crossed` still report it — see the
counterexample.) -/
theorem uncrossed_books_for_nonzero_prices (l : List Order)
    (h : ∀ o ∈ l, o.price ≠ 0) :
    ∀ sym bk,
      alookup (TradingEngine.new.process_orders l).orderbooks sym = some bk →
      bk.is_crossed = false := by
  have hE0 : EngineInv TradingEngine.new := by
    intro pb hpb
    simp [TradingEngine.new] at hpb
  have hinv := process_orders_inv l TradingEngine.new hE0 h
  intro sym bk hlk
  exact (hinv _ (alookup_mem hlk)).2.2.2.2.2.2.2

/-- Witness for C4: the spec's S1 scenario (BUY 10@100 then SELL 10@100)
drains both orders; the book is un-crossed after the queue is drained. -/
theorem uncrossed_books_witness :
    ((alookup (TradingEngine.new.process_orders
        [Order.new 1 "A" "AAPL" OrderSide.BUY 10 100,
         Order.new 2 "B" "AAPL" OrderSide.SELL 10 100]).orderbooks "AAPL").getD
      (OrderBook.new "AAPL")).is_crossed = false :=
  uncrossed_books_for_nonzero_prices
    [Order.new 1 "A" "AAPL" OrderSide.BUY 10 100,
     Order.new 2 "B" "AAPL" OrderSide.SELL 10 100]
    (by decide) "AAPL" _ (by decide)

end HftSim

namespace HftSim

/-! ### C8 — conservation of positions -/

theorem alookup_aset_isSome {α β : Type} [DecidableEq α] (l : List (α × β))
    (k' k : α) (v : β) (h : (alookup l k').isSome = true) :
    (alookup (aset l k v) k').isSome = true := by
  rw [alookup_aset]
  by_cases hk : k' = k
  · simp [hk]
  · rw [if_neg hk]
    exact h

theorem on_filled_buy_pos (t : Trader) (o : Order) (q : Int) (p : Rat)
    (hside : o.side = OrderSide.BUY)
    (hpos : (alookup t.positions o.symbol).isSome = true)
    (havg : (alookup t.average_costs o.symbol).isSome = true) (sym : String) :
    (alookup (t.on_order_filled o q p).positions sym).getD 0
      = (alookup t.positions sym).getD 0 + (if sym = o.symbol then q else 0) := by
  rcases Option.isSome_iff_exists.mp hpos with ⟨old, hl⟩
  rcases Option.isSome_iff_exists.mp havg with ⟨avg, hl2⟩
  unfold Trader.on_order_filled
  rw [if_pos hside]
  dsimp only
  rw [hl]
  dsimp only
  rw [hl2]
  dsimp only
  split <;>
    · rw [alookup_aset]
      by_cases hsym : sym = o.symbol
      · rw [if_pos hsym, if_pos hsym, hsym, hl]
        simp
      · rw [if_neg hsym, if_neg hsym]
        simp

theorem on_filled_sell_pos (t : Trader) (o : Order) (q : Int) (p : Rat)
    (hside : o.side = OrderSide.SELL)
    (hpos : (alookup t.positions o.symbol).isSome = true) (sym : String) :
    (alookup (t.on_order_filled o q p).positions sym).getD 0
      = (alookup t.positions sym).getD 0 + (if sym = o.symbol then -q else 0) := by
  rcases Option.isSome_iff_exists.mp hpos with ⟨pos, hl⟩
  unfold Trader.on_order_filled
  rw [if_neg (by rw [hside]; simp)]
  dsimp only
  rw [hl]
  dsimp only
  split <;>
    · rw [alookup_aset]
      by_cases hsym : sym = o.symbol
      · rw [if_pos hsym, if_pos hsym, hsym, hl]
        simp
        omega
      · rw [if_neg hsym, if_neg hsym]
        simp

theorem on_filled_pos_isSome (t : Trader) (o : Order) (q : Int) (p : Rat)
    (sym : String) (h : (alookup t.positions sym).isSome = true) :
    (alookup (t.on_order_filled o q p).positions sym).isSome = true := by
  unfold Trader.on_order_filled
  split
  · dsimp only
    cases h1 : alookup t.positions o.symbol with
    | none => exact h
    | some old =>
        dsimp only
        cases h2 : alookup t.average_costs o.symbol with
        | none => exact h
        | some avg =>
            dsimp only
            split <;> exact alookup_aset_isSome _ _ _ _ h
  · dsimp only
    cases h1 : alookup t.positions o.symbol with
    | none => exact h
    | some pos =>
        dsimp only
        split <;> exact alookup_aset_isSome _ _ _ _ h

theorem on_filled_avg_isSome (t : Trader) (o : Order) (q : Int) (p : Rat)
    (sym : String) (h : (alookup t.average_costs sym).isSome = true) :
    (alookup (t.on_order_filled o q p).average_costs sym).isSome = true := by
  unfold Trader.on_order_filled
  split
  · dsimp only
    cases h1 : alookup t.positions o.symbol with
    | none => exact h
    | some old =>
        dsimp only
        cases h2 : alookup t.average_costs o.symbol with
        | none => exact h
        | some avg =>
            dsimp only
            split
            · exact alookup_aset_isSome _ _ _ _ h
            · exact h
  · dsimp only
    cases h1 : alookup t.positions o.symbol with
    | none => exact h
    | some pos =>
        dsimp only
        split
        · exact alookup_aset_isSome _ _ _ _ h
        · exact h

theorem sumPositions_aset :
    ∀ (l : List (String × Trader)) (k : String) (t t' : Trader),
      alookup l k = some t → ∀ sym,
        sumPositions (aset l k t') sym
          = sumPositions l sym - (alookup t.positions sym).getD 0
            + (alookup t'.positions sym).getD 0 := by
  intro l
  induction l with
  | nil => intro k t t' h; simp [alookup] at h
  | cons hd tl ih =>
      intro k t t' h sym
      obtain ⟨k0, t0⟩ := hd
      by_cases hk : k0 = k
      · rw [alookup, if_pos hk] at h
        injection h with h
        subst h
        rw [aset, if_pos hk]
        simp only [sumPositions, List.map_cons, List.sum_cons]
        omega
      · rw [alookup, if_neg hk] at h
        rw [aset, if_neg hk]
        simp only [sumPositions, List.map_cons, List.sum_cons]
        have := ih k t t' h sym
        simp only [sumPositions] at this
        omega

theorem notify_sum (e : TradingEngine) (o : Order) (q : Int) (p : Rat)
    (hreg : registeredFor e o.trader_id o.symbol = true) (sym : String) :
    sumPositions (e.notify_trader_fill o q p).traders sym
      = sumPositions e.traders sym
        + (if sym = o.symbol then (if o.side = OrderSide.BUY then q else -q) else 0) := by
  unfold registeredFor at hreg
  cases hl : alookup e.traders o.trader_id with
  | none => rw [hl] at hreg; simp at hreg
  | some t =>
      rw [hl] at hreg
      dsimp only at hreg
      rcases (Bool.and_eq_true _ _).mp hreg with ⟨hpos, havg⟩
      unfold TradingEngine.notify_trader_fill
      rw [hl]
      dsimp only
      rw [sumPositions_aset e.traders o.trader_id t _ hl sym]
      cases hside : o.side with
      | BUY =>
          rw [on_filled_buy_pos t o q p hside hpos havg sym]
          by_cases hsym : sym = o.symbol <;> simp [hsym, hside] <;> omega
      | SELL =>
          rw [on_filled_sell_pos t o q p hside hpos sym]
          by_cases hsym : sym = o.symbol <;> simp [hsym, hside] <;> omega

theorem notify_preserves_registered (e : TradingEngine) (o : Order) (q : Int)
    (p : Rat) (id sym : String) (h : registeredFor e id sym = true) :
    registeredFor (e.notify_trader_fill o q p) id sym = true := by
  unfold TradingEngine.notify_trader_fill
  cases hl : alookup e.traders o.trader_id with
  | none => exact h
  | some t =>
      dsimp only
      unfold registeredFor at h ⊢
      dsimp only
      rw [alookup_aset]
      by_cases hid : id = o.trader_id
      · rw [if_pos hid]
        subst hid
        rw [hl] at h
        dsimp only at h
        rcases (Bool.and_eq_true _ _).mp h with ⟨h1, h2⟩
        dsimp only
        rw [Bool.and_eq_true]
        exact ⟨on_filled_pos_isSome _ _ _ _ _ h1, on_filled_avg_isSome _ _ _ _ _ h2⟩
      · rw [if_neg hid]
        exact h

theorem notify_notify_sum (e : TradingEngine) (o1 o2 : Order) (q1 q2 : Int)
    (p1 p2 : Rat) (sym : String)
    (hreg1 : registeredFor e o1.trader_id o1.symbol = true)
    (hreg2 : registeredFor e o2.trader_id o2.symbol = true) :
    sumPositions ((e.notify_trader_fill o1 q1 p1).notify_trader_fill o2 q2 p2).traders sym
      = sumPositions e.traders sym
        + (if sym = o1.symbol then (if o1.side = OrderSide.BUY then q1 else -q1) else 0)
        + (if sym = o2.symbol then (if o2.side = OrderSide.BUY then q2 else -q2) else 0) := by
  rw [notify_sum _ o2 q2 p2 (notify_preserves_registered e o1 q1 p1 _ _ hreg2) sym,
    notify_sum _ o1 q1 p1 hreg1 sym]

end HftSim

namespace HftSim

theorem registeredFor_traders (e1 e2 : TradingEngine) (h : e1.traders = e2.traders)
    (id sym : String) : registeredFor e1 id sym = registeredFor e2 id sym := by
  unfold registeredFor
  rw [h]

theorem execute_trade_registered (e : TradingEngine) (buy sell : Order) (q : Int)
    (p : Rat) (bk : OrderBook) (id sym : String)
    (h : registeredFor e id sym = true) :
    registeredFor (e.execute_trade buy sell q p bk).engine id sym = true := by
  have hgoal : (e.execute_trade buy sell q p bk).engine
      = ((({ e with trade_history := ringAppend e.trade_history { trade_id := e.total_trades + 1, symbol := buy.symbol, quantity := q, price := p, buyer_id := buy.trader_id, seller_id := sell.trader_id, buy_order_id := buy.order_id, sell_order_id := sell.order_id, side := OrderSide.BUY } 10000, total_trades := e.total_trades + 1, total_volume := e.total_volume + q } : TradingEngine).notify_trader_fill (buy.fillApplied q p) q p).notify_trader_fill (sell.fillApplied q p) q p) := rfl
  rw [hgoal]
  apply notify_preserves_registered
  apply notify_preserves_registered
  rw [registeredFor_traders ({ e with trade_history := ringAppend e.trade_history { trade_id := e.total_trades + 1, symbol := buy.symbol, quantity := q, price := p, buyer_id := buy.trader_id, seller_id := sell.trader_id, buy_order_id := buy.order_id, sell_order_id := sell.order_id, side := OrderSide.BUY } 10000, total_trades := e.total_trades + 1, total_volume := e.total_volume + q } : TradingEngine) e rfl]
  exact h

theorem execute_trade_sum (e : TradingEngine) (buy sell : Order) (q : Int) (p : Rat)
    (bk : OrderBook) (sym : String)
    (hbs : buy.side = OrderSide.BUY) (hss : sell.side = OrderSide.SELL)
    (hsym : sell.symbol = buy.symbol)
    (hregb : registeredFor e buy.trader_id buy.symbol = true)
    (hregs : registeredFor e sell.trader_id sell.symbol = true) :
    sumPositions (e.execute_trade buy sell q p bk).engine.traders sym
      = sumPositions e.traders sym := by
  have hregb1 : registeredFor ({ e with trade_history := ringAppend e.trade_history { trade_id := e.total_trades + 1, symbol := buy.symbol, quantity := q, price := p, buyer_id := buy.trader_id, seller_id := sell.trader_id, buy_order_id := buy.order_id, sell_order_id := sell.order_id, side := OrderSide.BUY } 10000, total_trades := e.total_trades + 1, total_volume := e.total_volume + q } : TradingEngine) (buy.fillApplied q p).trader_id (buy.fillApplied q p).symbol = true := by
    rw [fillApplied_trader_id, fillApplied_symbol, registeredFor_traders ({ e with trade_history := ringAppend e.trade_history { trade_id := e.total_trades + 1, symbol := buy.symbol, quantity := q, price := p, buyer_id := buy.trader_id, seller_id := sell.trader_id, buy_order_id := buy.order_id, sell_order_id := sell.order_id, side := OrderSide.BUY } 10000, total_trades := e.total_trades + 1, total_volume := e.total_volume + q } : TradingEngine) e rfl]
    exact hregb
  have hregs1 : registeredFor ({ e with trade_history := ringAppend e.trade_history { trade_id := e.total_trades + 1, symbol := buy.symbol, quantity := q, price := p, buyer_id := buy.trader_id, seller_id := sell.trader_id, buy_order_id := buy.order_id, sell_order_id := sell.order_id, side := OrderSide.BUY } 10000, total_trades := e.total_trades + 1, total_volume := e.total_volume + q } : TradingEngine) (sell.fillApplied q p).trader_id (sell.fillApplied q p).symbol = true := by
    rw [fillApplied_trader_id, fillApplied_symbol, registeredFor_traders ({ e with trade_history := ringAppend e.trade_history { trade_id := e.total_trades + 1, symbol := buy.symbol, quantity := q, price := p, buyer_id := buy.trader_id, seller_id := sell.trader_id, buy_order_id := buy.order_id, sell_order_id := sell.order_id, side := OrderSide.BUY } 10000, total_trades := e.total_trades + 1, total_volume := e.total_volume + q } : TradingEngine) e rfl]
    exact hregs
  have key := notify_notify_sum _ (buy.fillApplied q p) (sell.fillApplied q p) q q p p sym hregb1 hregs1
  have hgoal : sumPositions (e.execute_trade buy sell q p bk).engine.traders sym
      = sumPositions ((({ e with trade_history := ringAppend e.trade_history { trade_id := e.total_trades + 1, symbol := buy.symbol, quantity := q, price := p, buyer_id := buy.trader_id, seller_id := sell.trader_id, buy_order_id := buy.order_id, sell_order_id := sell.order_id, side := OrderSide.BUY } 10000, total_trades := e.total_trades + 1, total_volume := e.total_volume + q } : TradingEngine).notify_trader_fill (buy.fillApplied q p) q p).notify_trader_fill (sell.fillApplied q p) q p).traders sym := rfl
  rw [hgoal, key]
  have hXt : ({ e with trade_history := ringAppend e.trade_history { trade_id := e.total_trades + 1, symbol := buy.symbol, quantity := q, price := p, buyer_id := buy.trader_id, seller_id := sell.trader_id, buy_order_id := buy.order_id, sell_order_id := sell.order_id, side := OrderSide.BUY } 10000, total_trades := e.total_trades + 1, total_volume := e.total_volume + q } : TradingEngine).traders = e.traders := rfl
  rw [hXt, fillApplied_symbol, fillApplied_symbol, fillApplied_side, fillApplied_side,
    hbs, hss, hsym]
  by_cases h : sym = buy.symbol <;> simp [h]

theorem execute_trades_sum :
    ∀ (l : List (Order × Order × Int × Rat)) (e : TradingEngine),
      (∀ x ∈ l, x.1.side = OrderSide.BUY ∧ x.2.1.side = OrderSide.SELL ∧
        x.2.1.symbol = x.1.symbol ∧
        registeredFor e x.1.trader_id x.1.symbol = true ∧
        registeredFor e x.2.1.trader_id x.2.1.symbol = true) →
      ∀ sym, sumPositions (e.execute_trades l).traders sym = sumPositions e.traders sym := by
  intro l
  induction l with
  | nil => intro e _ sym; rfl
  | cons x rest ih =>
      intro e hl sym
      obtain ⟨hb, hs, hsy, hrb, hrs⟩ := hl x (List.mem_cons_self _ _)
      have hstep : TradingEngine.execute_trades e (x :: rest)
          = TradingEngine.execute_trades
              (e.execute_trade x.1 x.2.1 x.2.2.1 x.2.2.2 (OrderBook.new x.1.symbol)).engine rest := rfl
      rw [hstep]
      have hrest : ∀ y ∈ rest, y.1.side = OrderSide.BUY ∧ y.2.1.side = OrderSide.SELL ∧
          y.2.1.symbol = y.1.symbol ∧
          registeredFor (e.execute_trade x.1 x.2.1 x.2.2.1 x.2.2.2 (OrderBook.new x.1.symbol)).engine y.1.trader_id y.1.symbol = true ∧
          registeredFor (e.execute_trade x.1 x.2.1 x.2.2.1 x.2.2.2 (OrderBook.new x.1.symbol)).engine y.2.1.trader_id y.2.1.symbol = true := by
        intro y hy
        obtain ⟨a, b, c, d, f⟩ := hl y (List.mem_cons_of_mem _ hy)
        exact ⟨a, b, c, execute_trade_registered _ _ _ _ _ _ _ _ d,
          execute_trade_registered _ _ _ _ _ _ _ _ f⟩
      rw [ih _ hrest sym]
      exact execute_trade_sum e x.1 x.2.1 x.2.2.1 x.2.2.2 _ sym hb hs hsy hrb hrs

/-- C8 (confirmed): conservation of shares per symbol.  Each
`_execute_trade` adds the fill quantity to the buyer's position and
subtracts the same quantity from the seller's position (buyer callback
first, then seller; a self-trade hits the same trader twice), so for any
sequence of trades whose parties are registered traders whose symbol
lists contain the traded symbol, the sum over all traders of
`position(s)` is unchanged — and stays 0 when every position starts
at 0. -/
theorem conservation_of_positions (e : TradingEngine)
    (l : List (Order × Order × Int × Rat))
    (hl : ∀ x ∈ l, x.1.side = OrderSide.BUY ∧ x.2.1.side = OrderSide.SELL ∧
      x.2.1.symbol = x.1.symbol ∧
      registeredFor e x.1.trader_id x.1.symbol = true ∧
      registeredFor e x.2.1.trader_id x.2.1.symbol = true) :
    (∀ sym, sumPositions (e.execute_trades l).traders sym = sumPositions e.traders sym) ∧
    ((∀ sym, sumPositions e.traders sym = 0) →
      ∀ sym, sumPositions (e.execute_trades l).traders sym = 0) := by
  refine ⟨execute_trades_sum l e hl, fun hz sym => ?_⟩
  rw [execute_trades_sum l e hl sym, hz sym]

/-- Witness for C8: two registered traders exchange 5 shares; the summed
position is unchanged (0 before, 0 after). -/
theorem conservation_of_positions_witness :
    sumPositions (((TradingEngine.new.register_trader (Trader.new "A" 1000 ["S"])).register_trader
        (Trader.new "B" 1000 ["S"])).execute_trades
        [(Order.new 1 "A" "S" OrderSide.BUY 5 10, Order.new 2 "B" "S" OrderSide.SELL 5 10, 5, 10)]).traders "S"
      = sumPositions ((TradingEngine.new.register_trader (Trader.new "A" 1000 ["S"])).register_trader
        (Trader.new "B" 1000 ["S"])).traders "S" :=
  (conservation_of_positions _ _ (by decide)).1 "S"

end HftSim

namespace HftSim

/-! ### C9 — CSV import: whole-file validation semantics -/

theorem validate_fails (f : CsvFile)
    (hcols : (required_columns.filter (fun c => !(f.columns.contains c))).isEmpty = true)
    (herr : f.rows.any (fun r => r.quantity ≤ 0) = true ∨
      f.rows.any (fun r => r.price ≤ 0) = true ∨
      f.rows.any (fun r => !(valid_sides.contains r.side)) = true) :
    (validate_csv_format f).success = false := by
  simp only [validate_csv_format]
  rw [if_pos hcols]
  have hne : ((if f.rows.any (fun r => r.quantity ≤ 0) then ["Quantity values must be positive"] else []) ++
      (if f.rows.any (fun r => r.price ≤ 0) then ["Price values must be positive"] else []) ++
      (if f.rows.any (fun r => !(valid_sides.contains r.side)) then ["Invalid side values"] else [])).isEmpty = false := by
    rcases herr with h | h | h <;> rw [if_pos h] <;> simp
  rw [if_neg (by rw [hne]; simp)]

theorem validate_success_no_bad_side (f : CsvFile)
    (h : (validate_csv_format f).success = true) :
    f.rows.any (fun r => !(valid_sides.contains r.side)) = false := by
  by_contra hc
  have h4 : f.rows.any (fun r => !(valid_sides.contains r.side)) = true := by
    cases hx : f.rows.any (fun r => !(valid_sides.contains r.side))
    · exact absurd hx hc
    · rfl
  by_cases hcols : (required_columns.filter (fun c => !(f.columns.contains c))).isEmpty
  · have hfail := validate_fails f hcols (Or.inr (Or.inr h4))
    rw [hfail] at h
    simp at h
  · simp only [validate_csv_format] at h
    rw [if_neg hcols] at h
    simp at h

theorem valid_side_upper {s : String} (h : s ∈ valid_sides) :
    strUpper s = "BUY" ∨ strUpper s = "SELL" := by
  fin_cases h <;> decide

theorem submit_rows_all_ok :
    ∀ (rows : List CsvRow) (idx : Nat),
      (∀ r ∈ rows, strUpper r.side = "BUY" ∨ strUpper r.side = "SELL") →
      (submit_rows idx rows).success = true ∧
      (submit_rows idx rows).orders_submitted = rows.length ∧
      (submit_rows idx rows).orders_failed = 0 ∧
      (submit_rows idx rows).errors = [] ∧
      (submit_rows idx rows).submitted.length = rows.length := by
  intro rows
  induction rows with
  | nil => intro idx _; exact ⟨rfl, rfl, rfl, rfl, rfl⟩
  | cons r rest ih =>
      intro idx hs
      have hr := hs r (List.mem_cons_self _ _)
      have hrest := ih (idx + 1) (fun x hx => hs x (List.mem_cons_of_mem _ hx))
      rw [submit_rows, if_pos hr]
      obtain ⟨a, b, c, d, e⟩ := hrest
      refine ⟨a, ?_, c, d, ?_⟩
      · simp [b]
      · simp [e]

/-- Counterexample to C9 as stated: a file whose first row is perfectly
valid (BUY 10 @ 100) and whose second row has a non-positive quantity.
The claim says the bad row fails alone while the good row is still
submitted; instead `validate_csv_format` fails the whole file and
the import aborts with nothing submitted. -/
theorem csv_row_error_aborts_import_cex :
    (validate_csv_format csvFileBad).success = false ∧
    (import_orders_from_csv csvFileBad).success = false ∧
    (import_orders_from_csv csvFileBad).submitted = [] ∧
    (import_orders_from_csv csvFileBad).orders_submitted = 0 ∧
    ((10 : Int) > 0 ∧ (100 : Rat) > 0 ∧ valid_sides.contains "BUY" = true) := by
  refine ⟨rfl, rfl, rfl, rfl, by decide, by decide, rfl⟩

/-- C9 (corrected): the importer validates the whole file up front, not
per row.  (1) When the header is complete but any row has a non-positive
quantity or price or an invalid side spelling, the entire import aborts:
success is false and no row — valid or not — is submitted.  (2) Only a
file passing whole-file validation reaches the per-row loop, and then
every row is submitted (one order per row, zero failures, no error
messages), since validation already forced every side into
{BUY, SELL, buy, sell}. -/
theorem csv_import_whole_file_validation (f : CsvFile) :
    (((required_columns.filter (fun c => !(f.columns.contains c))).isEmpty = true) →
     (f.rows.any (fun r => r.quantity ≤ 0) = true ∨
      f.rows.any (fun r => r.price ≤ 0) = true ∨
      f.rows.any (fun r => !(valid_sides.contains r.side)) = true) →
     (import_orders_from_csv f).success = false ∧
     (import_orders_from_csv f).submitted = [] ∧
     (import_orders_from_csv f).orders_submitted = 0) ∧
    ((validate_csv_format f).success = true →
     (import_orders_from_csv f).success = true ∧
     (import_orders_from_csv f).orders_submitted = f.rows.length ∧
     (import_orders_from_csv f).orders_failed = 0 ∧
     (import_orders_from_csv f).errors = [] ∧
     (import_orders_from_csv f).submitted.length = f.rows.length) := by
  constructor
  · intro hcols herr
    have hval : (validate_csv_format f).success = false := validate_fails f hcols herr
    unfold import_orders_from_csv
    rw [if_pos hval]
    exact ⟨rfl, rfl, rfl⟩
  · intro hv
    have hbad := validate_success_no_bad_side f hv
    have hsides : ∀ r ∈ f.rows, strUpper r.side = "BUY" ∨ strUpper r.side = "SELL" := by
      intro r hr
      have hcont : (!(valid_sides.contains r.side)) = false :=
        Bool.not_eq_true _ ▸ (by exact fun hx => by rw [List.any_eq_false] at hbad; exact hbad r hr hx)
      have hcont' : valid_sides.contains r.side = true := by
        cases hx : valid_sides.contains r.side
        · rw [hx] at hcont; simp at hcont
        · rfl
      exact valid_side_upper (by simpa [valid_sides] using hcont')
    have hsub := submit_rows_all_ok f.rows 1 hsides
    have himp : import_orders_from_csv f = submit_rows 1 f.rows := by
      unfold import_orders_from_csv
      rw [if_neg (by rw [hv]; simp)]
    rw [himp]
    exact ⟨hsub.1, hsub.2.1, hsub.2.2.1, hsub.2.2.2.1, hsub.2.2.2.2⟩

/-- Witness for C9 at two concrete files: the aborting file (one bad row
among good ones) and a fully valid file that imports every row. -/
theorem csv_import_whole_file_validation_witness :
    ((import_orders_from_csv csvFileBad).success = false ∧
     (import_orders_from_csv csvFileBad).submitted = [] ∧
     (import_orders_from_csv csvFileBad).orders_submitted = 0) ∧
    ((import_orders_from_csv csvFileGood).success = true ∧
     (import_orders_from_csv csvFileGood).orders_submitted = csvFileGood.rows.length ∧
     (import_orders_from_csv csvFileGood).orders_failed = 0 ∧
     (import_orders_from_csv csvFileGood).errors = [] ∧
     (import_orders_from_csv csvFileGood).submitted.length = csvFileGood.rows.length) :=
  ⟨(csv_import_whole_file_validation csvFileBad).1 (by decide) (by decide),
   (csv_import_whole_file_validation csvFileGood).2 (by decide)⟩

end HftSim
